import Mathlib

/-!
Shallow embedding of src/torch_trainer/trainer.py.

A numpy array is modelled by its leading axis as a Lean List; the
elementwise representation (the dtype cast in to_32, the torch Variable
wrapping, and the device transfer under the cuda flag) is outside the
embedding, so a tensor slice is modelled by the List slice itself.
The model, the optimizer, the loss and the gradient computation are
externally supplied collaborators (torch objects); they are modelled by an
explicit environment of abstract functions over abstract state types, and
every trainer operation additionally returns the ordered list of
collaborator calls it performs, so that statements about call ordering and
about calls that never happen can be made.
-/

set_option linter.unusedVariables false

variable {α τ π γ ω : Type}

/-- Python slice arr[i : i + n] on the leading axis. -/
def listSlice (l : List α) (i n : Nat) : List α := (l.drop i).take n

/-- The start indices 0, n, 2n, ... below len: Python range(0, len, n) for
n > 0; the count is the ceiling of len / n. -/
def sliceStarts (len n : Nat) : List Nat := List.range' 0 ((len + n - 1) / n) n

/-- Message of the assert in chunks and chunk_shuffle. -/
def shapeErr : String := "Not all arrays are of same shape"

/-- Python range with step 0 raises ValueError. -/
def zeroStepErr : String := "ValueError: range arg 3 must not be zero"

/-- Python indexing into an empty list raises IndexError. -/
def indexErr : String := "IndexError: list index out of range"

/-- Python referencing a never-assigned local raises NameError. -/
def nameErr : String := "NameError: local variable is not defined"

/-- Python modulo by zero raises ZeroDivisionError. -/
def zdivErr : String := "ZeroDivisionError: integer modulo by zero"

/-- sklearn shuffle raises on arrays of inconsistent leading lengths. -/
def inconsistentErr : String := "ValueError: inconsistent numbers of samples"

/-- chunks(batchsize, *arrs, cuda=...): asserts all leading lengths equal,
then yields, for each start index i of range(0, length, n), the list of
per-array slices arr[i : i + n].  The Variable/to_32 wrapping and the cuda
transfer act elementwise and are identity at the level of this embedding.
The generator body runs no further than the failing assert, so on
mismatched lengths no batch is produced. -/
def chunks (n : Nat) (arrs : List (List α)) (cuda : Bool) :
    Except String (List (List (List α))) :=
  match arrs with
  | [] => Except.error indexErr
  | a :: rest =>
    if (a :: rest).all (fun arr => arr.length == a.length) then
      if n = 0 then Except.error zeroStepErr
      else
        Except.ok ((sliceStarts a.length n).map
          (fun i => (a :: rest).map (fun arr => listSlice arr i n)))
    else Except.error shapeErr

/-- chunk_shuffle(batchsize, *arrs): same asserts and same slicing as
chunks, without the dtype cast and without the cuda transfer (both identity
here). -/
def chunk_shuffle (n : Nat) (arrs : List (List α)) :
    Except String (List (List (List α))) :=
  match arrs with
  | [] => Except.error indexErr
  | a :: rest =>
    if (a :: rest).all (fun arr => arr.length == a.length) then
      if n = 0 then Except.error zeroStepErr
      else
        Except.ok ((sliceStarts a.length n).map
          (fun i => (a :: rest).map (fun arr => listSlice arr i n)))
    else Except.error shapeErr

/-- One entry appended by run_callbacks: the named callback outputs and the
keyword metrics, tagged with the epoch and iteration counters and the
train flag.  The wall-clock timestamp and iter_time values are outside the
embedding. -/
structure LogRecord (τ : Type) where
  vals : List (String × τ)
  epoch : Nat
  iteration : Nat
  train : Bool
  deriving DecidableEq

/-- The externally supplied collaborators of Trainer for fit and test:
model (forward, loss over a possible tuple of loss terms, parameters of
type pi), torch autograd (backward accumulating into gradients of type
gamma, sum over loss terms, clip_grad_norm, max abs gradient), the
optimizer (zero_grad value and step over optimizer state of type omega),
the named callbacks, and the permutation sklearn shuffle derives from a
random_state and a length. -/
structure Env (α τ π γ ω : Type) where
  shufflePerm : Nat → Nat → List Nat
  forward : π → List (List α) → τ
  loss : π → τ → List (List α) → List τ
  sumv : List τ → τ
  backward : γ → τ → γ
  zeroGrad : γ
  clipGradNorm : γ → ℚ → γ
  step : ω → π → γ → ω × π
  gradAbsMax : γ → τ
  callbacks : List (String × (List (List α) → π → τ → τ))

/-- The mutable state reachable from a Trainer object: the model's
train/eval flag and parameters, the gradient buffers, the optimizer state,
and the Trainer attributes set in init. -/
structure Trainer (τ π γ ω : Type) where
  trainMode : Bool
  params : π
  grads : γ
  opt : ω
  previous_log : List (LogRecord τ)
  log : List (LogRecord τ)
  epoch : Nat
  iteration : Nat
  seed : Nat
  print_every : Nat
  batchsize : Nat
  window : Nat
  clip : Option ℚ
  cuda : Bool
  grad_norm : Bool
  deriving DecidableEq

/-- Collaborator calls performed by fit and test, in order. -/
inductive Event (α τ : Type) where
  | zero_grad : Event α τ
  | forwardCall (args : List (List α)) : Event α τ
  | lossCall (pred : τ) (args : List (List α)) : Event α τ
  | backwardCall : Event α τ
  | clipCall (threshold : ℚ) : Event α τ
  | stepCall : Event α τ
  | callbacksRun : Event α τ
  | printLog : Event α τ
  | trainSet (mode : Bool) : Event α τ
  | shuffleCall (rs : Nat) : Event α τ
  deriving DecidableEq

/-- Python truthiness of the clip attribute: None and 0.0 are falsy,
every other float is truthy. -/
def pyTruthy : Option ℚ → Bool
  | none => false
  | some c => decide (c ≠ 0)

/-- Gradient update of the conditional clip_grad_norm call. -/
def clipApply (f : γ → ℚ → γ) (clip : Option ℚ) (g : γ) : γ :=
  if pyTruthy clip then f g (clip.getD 0) else g

/-- Trace of the conditional clip_grad_norm call. -/
def clipEvents (clip : Option ℚ) : List (Event α τ) :=
  if pyTruthy clip then [Event.clipCall (clip.getD 0)] else []

/-- run_callbacks(batch, pred, **kwargs): every named callback applied to
the batch, the model and the prediction, merged with the keyword metrics
and tagged with the counters. -/
def run_callbacks (cbs : List (String × (List (List α) → π → τ → τ)))
    (params : π) (epoch iteration : Nat) (batch : List (List α)) (pred : τ)
    (train : Bool) (kwargs : List (String × τ)) : LogRecord τ :=
  { vals := cbs.map (fun c => (c.1, c.2 batch params pred)) ++ kwargs
    epoch := epoch
    iteration := iteration
    train := train }

/-- Prediction of one fit batch: model.forward applied to the whole batch. -/
def fitPred (env : Env α τ π γ ω) (s : Trainer τ π γ ω)
    (b : List (List α)) : τ :=
  env.forward s.params b

/-- Loss terms of one fit batch: model.loss applied to the prediction and
the whole batch. -/
def fitLossTerms (env : Env α τ π γ ω) (s : Trainer τ π γ ω)
    (b : List (List α)) : List τ :=
  env.loss s.params (fitPred env s b) b

/-- Gradients of one fit batch: zeroed, accumulated by backward on the
summed loss, then conditionally clipped. -/
def fitGrads (env : Env α τ π γ ω) (s : Trainer τ π γ ω)
    (b : List (List α)) : γ :=
  clipApply env.clipGradNorm s.clip
    (env.backward env.zeroGrad (env.sumv (fitLossTerms env s b)))

/-- Optimizer state after the step of one fit batch. -/
def fitOpt (env : Env α τ π γ ω) (s : Trainer τ π γ ω)
    (b : List (List α)) : ω :=
  (env.step s.opt s.params (fitGrads env s b)).1

/-- Model parameters after the step of one fit batch. -/
def fitParams (env : Env α τ π γ ω) (s : Trainer τ π γ ω)
    (b : List (List α)) : π :=
  (env.step s.opt s.params (fitGrads env s b)).2

/-- Keyword metrics of one fit batch: one loss_i entry per loss term and,
when the grad_norm flag is set, the max abs gradient after the step. -/
def fitKwargs (env : Env α τ π γ ω) (s : Trainer τ π γ ω)
    (b : List (List α)) : List (String × τ) :=
  (fitLossTerms env s b).enum.map
      (fun il => (String.append "loss_" (toString il.1), il.2))
    ++ (if s.grad_norm then [("grad_norm_max", env.gradAbsMax (fitGrads env s b))] else [])

/-- Log record of one fit batch; run_callbacks runs after the optimizer
step, so the callbacks see the stepped parameters. -/
def fitRecord (env : Env α τ π γ ω) (s : Trainer τ π γ ω)
    (b : List (List α)) : LogRecord τ :=
  run_callbacks env.callbacks (fitParams env s b) s.epoch s.iteration b
    (fitPred env s b) true (fitKwargs env s b)

/-- Collaborator calls of one fit batch, in source order. -/
def fitEvents (env : Env α τ π γ ω) (s : Trainer τ π γ ω)
    (b : List (List α)) : List (Event α τ) :=
  [Event.zero_grad, Event.forwardCall b,
   Event.lossCall (fitPred env s b) b, Event.backwardCall]
    ++ clipEvents s.clip ++ [Event.stepCall, Event.callbacksRun]
    ++ (if s.iteration % s.print_every = 0 then [Event.printLog] else [])

/-- Body of the fit loop for one batch: zero_grad, forward on the whole
batch, loss on the prediction and the whole batch, sum, backward,
conditional clip, optimizer step, run_callbacks, periodic print, increment
the iteration counter.  A zero print_every makes the periodic-print modulo
raise ZeroDivisionError. -/
def fitStep (env : Env α τ π γ ω) (s : Trainer τ π γ ω) (b : List (List α)) :
    Except String (Trainer τ π γ ω × List (Event α τ)) :=
  if s.print_every = 0 then Except.error zdivErr
  else
    Except.ok
      ({ s with
          grads := fitGrads env s b
          opt := fitOpt env s b
          params := fitParams env s b
          log := s.log ++ [fitRecord env s b]
          iteration := s.iteration + 1 },
       fitEvents env s b)

/-- Sequencing of a per-batch body over the list of batches, accumulating
the call trace; an error aborts the pass. -/
def runBatches (f : σ → β → Except String (σ × List ε)) :
    σ → List β → Except String (σ × List ε)
  | s, [] => Except.ok (s, [])
  | s, b :: bs =>
    match f s b with
    | Except.error m => Except.error m
    | Except.ok (s1, evs) =>
      match runBatches f s1 bs with
      | Except.error m => Except.error m
      | Except.ok (s2, evs2) => Except.ok (s2, evs ++ evs2)

/-- Row selection by a list of indices; sklearn shuffle applies one such
permutation jointly to every array. -/
def permuteBy (p : List Nat) (l : List α) : List α :=
  p.filterMap (fun i => l.get? i)

/-- sklearn.utils.shuffle(*arrays, random_state=rs): validates that the
leading lengths agree, then applies the permutation drawn from rs jointly
to every array. -/
def sklearnShuffle (perm : Nat → Nat → List Nat) (rs : Nat)
    (args : List (List α)) : Except String (List (List α)) :=
  match args with
  | [] => Except.ok []
  | a :: rest =>
    if (a :: rest).all (fun arr => arr.length == a.length) then
      Except.ok ((a :: rest).map (permuteBy (perm rs a.length)))
    else Except.error inconsistentErr

/-- fit(*args): model.train(True), reset the iteration counter, draw rs
from the global random source (modelled as the explicit argument rs, the
value of random.randint(0, 100000); the commented-out alternative using
the configured seed is not executed), shuffle all arrays jointly with rs,
run the per-batch body over the chunks, then increment the epoch counter,
flush the log into previous_log and call model.train(False). -/
def fit (env : Env α τ π γ ω) (rs : Nat) (s : Trainer τ π γ ω)
    (args : List (List α)) :
    Except String (Trainer τ π γ ω × List (Event α τ)) :=
  let s0 : Trainer τ π γ ω := { s with trainMode := true, iteration := 0 }
  match sklearnShuffle env.shufflePerm rs args with
  | Except.error m => Except.error m
  | Except.ok shuffled =>
    match chunks s.batchsize shuffled s.cuda with
    | Except.error m => Except.error m
    | Except.ok bs =>
      match runBatches (fitStep env) s0 bs with
      | Except.error m => Except.error m
      | Except.ok (s1, evs) =>
        Except.ok
          ({ s1 with
              epoch := s1.epoch + 1
              previous_log := s1.previous_log ++ s1.log
              log := []
              trainMode := false },
           Event.trainSet true :: Event.shuffleCall rs :: evs
             ++ [Event.trainSet false])

/-- Prediction of one test batch: model.forward applied to every array of
the batch except the last. -/
def testPred (env : Env α τ π γ ω) (s : Trainer τ π γ ω)
    (b : List (List α)) : τ :=
  env.forward s.params b.dropLast

/-- Summed loss of one test batch: model.loss applied to the prediction
and the last array only. -/
def testScalar (env : Env α τ π γ ω) (s : Trainer τ π γ ω)
    (b : List (List α)) (tgt : List α) : τ :=
  env.sumv (env.loss s.params (testPred env s b) [tgt])

/-- Log record of one test batch: whole batch to the callbacks, loss
keyword, train flag false. -/
def testRecord (env : Env α τ π γ ω) (s : Trainer τ π γ ω)
    (b : List (List α)) (tgt : List α) : LogRecord τ :=
  run_callbacks env.callbacks s.params s.epoch s.iteration b
    (testPred env s b) false [("loss", testScalar env s b tgt)]

/-- Collaborator calls of one test batch: no zero_grad, no clip, no
optimizer step. -/
def testEvents (env : Env α τ π γ ω) (s : Trainer τ π γ ω)
    (b : List (List α)) (tgt : List α) : List (Event α τ) :=
  [Event.forwardCall b.dropLast,
   Event.lossCall (testPred env s b) [tgt],
   Event.backwardCall, Event.callbacksRun]
    ++ (if s.iteration % s.print_every = 0 then [Event.printLog] else [])

/-- Body of the test loop for one batch: target is the last array of the
batch, forward on the rest, loss on prediction and target, backward
accumulating onto the current gradients (test zeroes gradients only once,
before the loop), run_callbacks, periodic print, increment the iteration
counter.  Never calls optimizer.step. -/
def testStep (env : Env α τ π γ ω) (s : Trainer τ π γ ω) (b : List (List α)) :
    Except String (Trainer τ π γ ω × List (Event α τ)) :=
  match b.getLast? with
  | none => Except.error indexErr
  | some tgt =>
    if s.print_every = 0 then Except.error zdivErr
    else
      Except.ok
        ({ s with
            grads := env.backward s.grads (testScalar env s b tgt)
            log := s.log ++ [testRecord env s b tgt]
            iteration := s.iteration + 1 },
         testEvents env s b tgt)

/-- test(*args): model.train(False), reset the iteration counter, one
zero_grad, run the per-batch body over the chunks (no shuffle), then
zero_grad again, reset the iteration counter again, flush the log into
previous_log and call model.train(True).  The epoch counter is not
touched. -/
def test (env : Env α τ π γ ω) (s : Trainer τ π γ ω)
    (args : List (List α)) :
    Except String (Trainer τ π γ ω × List (Event α τ)) :=
  let s0 : Trainer τ π γ ω :=
    { s with trainMode := false, iteration := 0, grads := env.zeroGrad }
  match chunks s.batchsize args s.cuda with
  | Except.error m => Except.error m
  | Except.ok bs =>
    match runBatches (testStep env) s0 bs with
    | Except.error m => Except.error m
    | Except.ok (s1, evs) =>
      Except.ok
        ({ s1 with
            grads := env.zeroGrad
            iteration := 0
            previous_log := s1.previous_log ++ s1.log
            log := []
            trainMode := true },
         Event.trainSet false :: Event.zero_grad :: evs
           ++ [Event.zero_grad, Event.trainSet true])

/-- Collaborator calls performed by fit_sequence, in order. -/
inductive SeqEvent (α τ : Type) where
  | zeroG : SeqEvent α τ
  | forwardF (x : List α) : SeqEvent α τ
  | lossF (pred : τ) (y : List α) : SeqEvent α τ
  | backwardF : SeqEvent α τ
  | clipF (threshold : ℚ) : SeqEvent α τ
  | stepF : SeqEvent α τ
  | cbRun : SeqEvent α τ
  | printL : SeqEvent α τ
  deriving DecidableEq

/-- The externally supplied collaborators of Trainer for fit_sequence:
forward takes a single time-step frame and loss returns a single scalar
term, mirroring how the sequence variant calls the model. -/
structure SeqEnv (α τ π γ ω : Type) where
  forward : π → List α → τ
  loss : π → τ → List α → τ
  backward : γ → τ → γ
  zeroGrad : γ
  clipGradNorm : γ → ℚ → γ
  step : ω → π → γ → ω × π
  callbacks : List (String × (List (List α) → π → τ → τ))

/-- The four Python locals left over from the last executed time step of
fit_sequence: input_frame, label_frame, pred_frame, loss. -/
def Frame (α τ : Type) : Type := List α × List α × τ × τ

/-- Column frame of a 2D array: input[:, frame] as the list of the
frame-th entry of every row; only meaningful when frame is within the row
width. -/
def frameCol [Inhabited α] (rows : List (List α)) (f : Nat) : List α :=
  rows.map (fun row => row.getD f default)

/-- Prediction of one fit_sequence time step: model.forward on the input
frame only. -/
def seqPred [Inhabited α] (env : SeqEnv α τ π γ ω) (s : Trainer τ π γ ω)
    (xb : List (List α)) (f : Nat) : τ :=
  env.forward s.params (frameCol xb f)

/-- Scalar loss of one fit_sequence time step: model.loss on the
prediction and the label frame. -/
def seqLoss [Inhabited α] (env : SeqEnv α τ π γ ω) (s : Trainer τ π γ ω)
    (xb yb : List (List α)) (f : Nat) : τ :=
  env.loss s.params (seqPred env s xb f) (frameCol yb f)

/-- Gradients of one fit_sequence time step: zeroed, accumulated by
backward on the scalar loss, then conditionally clipped. -/
def seqGrads [Inhabited α] (env : SeqEnv α τ π γ ω) (s : Trainer τ π γ ω)
    (xb yb : List (List α)) (f : Nat) : γ :=
  clipApply env.clipGradNorm s.clip
    (env.backward env.zeroGrad (seqLoss env s xb yb f))

/-- Optimizer state and parameters after the step of one fit_sequence
time step. -/
def seqOptParams [Inhabited α] (env : SeqEnv α τ π γ ω) (s : Trainer τ π γ ω)
    (xb yb : List (List α)) (f : Nat) : ω × π :=
  env.step s.opt s.params (seqGrads env s xb yb f)

/-- Collaborator calls of one fit_sequence time step, in source order. -/
def seqFrameEvents [Inhabited α] (env : SeqEnv α τ π γ ω)
    (s : Trainer τ π γ ω) (xb yb : List (List α)) (f : Nat) :
    List (SeqEvent α τ) :=
  [SeqEvent.zeroG, SeqEvent.forwardF (frameCol xb f),
   SeqEvent.lossF (seqPred env s xb f) (frameCol yb f), SeqEvent.backwardF]
    ++ (if pyTruthy s.clip then [SeqEvent.clipF (s.clip.getD 0)] else [])
    ++ [SeqEvent.stepF]

/-- One time step of the inner loop of fit_sequence: zero_grad, extract
input[:, frame] and label[:, frame] (numpy raises IndexError when frame is
not below the row width, input first, matching source order), forward on
the input frame only, loss on the prediction and the label frame,
backward, conditional clip, optimizer step.  The Option component carries
the Python locals that survive the step. -/
def seqFrameStep [Inhabited α] (env : SeqEnv α τ π γ ω)
    (xb yb : List (List α)) (st : Trainer τ π γ ω × Option (Frame α τ))
    (f : Nat) :
    Except String ((Trainer τ π γ ω × Option (Frame α τ)) × List (SeqEvent α τ)) :=
  if xb.all (fun row => f < row.length) then
    if yb.all (fun row => f < row.length) then
      Except.ok
        (({ st.1 with
              grads := seqGrads env st.1 xb yb f
              opt := (seqOptParams env st.1 xb yb f).1
              params := (seqOptParams env st.1 xb yb f).2 },
          some (frameCol xb f, frameCol yb f, seqPred env st.1 xb f,
                seqLoss env st.1 xb yb f)),
         seqFrameEvents env st.1 xb yb f)
    else Except.error indexErr
  else Except.error indexErr

/-- The inner time-step loop of fit_sequence over range(length.max()); an
IndexError at any time step aborts the pass. -/
def runFrames [Inhabited α] (env : SeqEnv α τ π γ ω) (xb yb : List (List α))
    (st : Trainer τ π γ ω × Option (Frame α τ)) (fs : List Nat) :
    Except String ((Trainer τ π γ ω × Option (Frame α τ)) × List (SeqEvent α τ)) :=
  runBatches (seqFrameStep env xb yb) st fs

/-- Log record of one fit_sequence batch: only the last executed time
step's input, label, prediction and loss are logged. -/
def seqRecordOf (env : SeqEnv α τ π γ ω) (s1 : Trainer τ π γ ω)
    (fr : Frame α τ) : LogRecord τ :=
  run_callbacks env.callbacks s1.params s1.epoch s1.iteration
    [fr.1, fr.2.1] fr.2.2.1 true [("loss", fr.2.2.2)]

/-- Body of the fit_sequence loop for one batch: run every time step up to
the max of the batch's length slice (an IndexError there propagates), then
log only the locals of the last executed time step (NameError when no time
step ever executed and no earlier batch left locals behind), periodic
print, increment the iteration counter.  The iteration counter is never
reset. -/
def fitSeqBatch [Inhabited α] (env : SeqEnv α τ π γ ω)
    (st : Trainer τ π γ ω × Option (Frame α τ))
    (b : List (List α) × List (List α) × List Nat) :
    Except String ((Trainer τ π γ ω × Option (Frame α τ)) × List (SeqEvent α τ)) :=
  match runFrames env b.1 b.2.1 st (List.range (b.2.2.foldl max 0)) with
  | Except.error m => Except.error m
  | Except.ok r =>
    match r.1.2 with
    | none => Except.error nameErr
    | some fr =>
      if r.1.1.print_every = 0 then Except.error zdivErr
      else
        Except.ok
          (({ r.1.1 with
                log := r.1.1.log ++ [seqRecordOf env r.1.1 fr]
                iteration := r.1.1.iteration + 1 },
            some fr),
           r.2 ++ [SeqEvent.cbRun]
             ++ (if r.1.1.iteration % r.1.1.print_every = 0
                 then [SeqEvent.printL] else []))

/-- fit_sequence(inputs, labels, lengths): chunk_shuffle slicing of the
three arrays (the asserts of chunk_shuffle, no joint shuffle, no dtype
cast), the per-batch body over the batches, then increment the epoch
counter and flush the log into previous_log.  The iteration counter is not
reset and the model's train flag is not touched. -/
def fitSequence [Inhabited α] (env : SeqEnv α τ π γ ω) (s : Trainer τ π γ ω)
    (inputs labels : List (List α)) (lengths : List Nat) :
    Except String (Trainer τ π γ ω × List (SeqEvent α τ)) :=
  if labels.length = inputs.length ∧ lengths.length = inputs.length then
    if s.batchsize = 0 then Except.error zeroStepErr
    else
      let bs := (sliceStarts inputs.length s.batchsize).map
        (fun i => (listSlice inputs i s.batchsize, listSlice labels i s.batchsize,
                   listSlice lengths i s.batchsize))
      match runBatches (fitSeqBatch env) (s, none) bs with
      | Except.error m => Except.error m
      | Except.ok (st, evs) =>
        Except.ok
          ({ st.1 with
              epoch := st.1.epoch + 1
              previous_log := st.1.previous_log ++ st.1.log
              log := [] },
           evs)
  else Except.error shapeErr

/-- Concrete collaborator environment over Nat states, used to evaluate
the embedding on concrete inputs: the shuffle permutation is the identity
permutation, forward and loss are constant, step bumps both optimizer
state and parameters. -/
def envN : Env Nat Nat Nat Nat Nat where
  shufflePerm := fun _ len => List.range len
  forward := fun _ _ => 0
  loss := fun _ _ _ => []
  sumv := fun l => l.sum
  backward := fun g _ => g + 1
  zeroGrad := 0
  clipGradNorm := fun g _ => g
  step := fun o p _ => (o + 1, p + 1)
  gradAbsMax := fun _ => 0
  callbacks := []

/-- Concrete sequence-variant environment over Nat states. -/
def seqEnvN : SeqEnv Nat Nat Nat Nat Nat where
  forward := fun _ _ => 0
  loss := fun _ _ _ => 0
  backward := fun g _ => g + 1
  zeroGrad := 0
  clipGradNorm := fun g _ => g
  step := fun o p _ => (o + 1, p + 1)
  callbacks := []

/-- A freshly constructed Trainer with the constructor defaults of init
(seed 42, print_every 25, batchsize 2048, window 500, clip None) and
zeroed collaborator states; torch modules start in train mode. -/
def trainer0 : Trainer Nat Nat Nat Nat where
  trainMode := true
  params := 0
  grads := 0
  opt := 0
  previous_log := []
  log := []
  epoch := 0
  iteration := 0
  seed := 42
  print_every := 25
  batchsize := 2048
  window := 500
  clip := none
  cuda := false
  grad_norm := false

theorem length_listSlice (l : List α) (i n : Nat) :
    (listSlice l i n).length = min n (l.length - i) := by
  simp [listSlice]

theorem length_sliceStarts (len n : Nat) :
    (sliceStarts len n).length = (len + n - 1) / n :=
  List.length_range' ..

/-- Ceiling-division recurrence used to peel one batch off the front. -/
theorem ceil_div_succ (n L : Nat) (hn : 0 < n) (hL : 0 < L) :
    (L + n - 1) / n = (L - n + n - 1) / n + 1 := by
  rcases le_or_lt L n with h | h
  · have h1 : L - n = 0 := by omega
    have h2 : L + n - 1 = (L - 1) + n := by omega
    rw [h1, h2, Nat.add_div_right _ hn, Nat.zero_add,
      Nat.div_eq_of_lt (by omega), Nat.div_eq_of_lt (by omega)]
  · have h2 : L + n - 1 = (L - n + n - 1) + n := by omega
    rw [h2, Nat.add_div_right _ hn]

/-- The slice lengths cut out by sliceStarts sum to the original length
(fuel-based strong induction on the length). -/
theorem sum_min_starts_fuel (n : Nat) (hn : 0 < n) :
    ∀ fuel L, L ≤ fuel →
      ((sliceStarts L n).map (fun i => min n (L - i))).sum = L := by
  intro fuel
  induction fuel with
  | zero =>
    intro L hL
    have hL0 : L = 0 := Nat.le_zero.mp hL
    subst hL0
    have hz : (0 + n - 1) / n = 0 := by
      rw [Nat.zero_add]; exact Nat.div_eq_of_lt (by omega)
    simp [sliceStarts, hz]
  | succ fuel ih =>
    intro L hL
    rcases Nat.eq_zero_or_pos L with hL0 | hLpos
    · subst hL0
      have hz : (0 + n - 1) / n = 0 := by
        rw [Nat.zero_add]; exact Nat.div_eq_of_lt (by omega)
      simp [sliceStarts, hz]
    · have hrec := ceil_div_succ n L hn hLpos
      have hshift : List.range' n ((L - n + n - 1) / n) n
          = (List.range' 0 ((L - n + n - 1) / n) n).map (fun x => n + x) := by
        rw [List.map_add_range']
        norm_num
      have htail := ih (L - n) (by omega)
      calc ((sliceStarts L n).map (fun i => min n (L - i))).sum
          = ((List.range' 0 ((L - n + n - 1) / n + 1) n).map
              (fun i => min n (L - i))).sum := by rw [sliceStarts, hrec]
        _ = min n L + ((List.range' n ((L - n + n - 1) / n) n).map
              (fun i => min n (L - i))).sum := by
            rw [List.range'_succ]; simp
        _ = min n L + ((List.range' 0 ((L - n + n - 1) / n) n).map
              (fun i => min n (L - n - i))).sum := by
            rw [hshift, List.map_map]
            have hfun : ((fun i => min n (L - i)) ∘ fun x => n + x)
                = fun i => min n (L - n - i) := by
              funext i
              simp only [Function.comp_apply]
              congr 1
              omega
            rw [hfun]
        _ = min n L + (L - n) := by rw [sliceStarts] at htail; rw [htail]
        _ = L := by omega

theorem sum_min_starts (n L : Nat) (hn : 0 < n) :
    ((sliceStarts L n).map (fun i => min n (L - i))).sum = L :=
  sum_min_starts_fuel n hn L L le_rfl

/-- A batch that is not the last one is full: its start leaves at least n
elements. -/
theorem full_batch_of_not_last (n L j : Nat) (hn : 0 < n)
    (hj : j + 1 < (L + n - 1) / n) : min n (L - n * j) = n := by
  have h1 : j + 2 ≤ (L + n - 1) / n := hj
  have h2 : (j + 2) * n ≤ L + n - 1 := (Nat.le_div_iff_mul_le hn).mp h1
  have h3 : (j + 2) * n = j * n + 2 * n := by ring
  have h4 : n * j = j * n := Nat.mul_comm n j
  omega

/-- chunks succeeds on equal-length arrays and returns the mapped slices. -/
theorem chunks_ok (n : Nat) (a : List α) (rest : List (List α)) (cuda : Bool)
    (hn : 0 < n) (hlen : ∀ arr ∈ rest, arr.length = a.length) :
    chunks n (a :: rest) cuda = Except.ok ((sliceStarts a.length n).map
      (fun i => (a :: rest).map (fun arr => listSlice arr i n))) := by
  have hall : (a :: rest).all (fun arr => arr.length == a.length) = true := by
    rw [List.all_eq_true]
    intro arr harr
    rcases List.mem_cons.mp harr with h | h
    · subst h; simp
    · simp [hlen arr h]
  simp [chunks, hall, Nat.pos_iff_ne_zero.mp hn]

/-- chunk_shuffle succeeds on equal-length arrays and returns the mapped
slices. -/
theorem chunk_shuffle_ok (n : Nat) (a : List α) (rest : List (List α))
    (hn : 0 < n) (hlen : ∀ arr ∈ rest, arr.length = a.length) :
    chunk_shuffle n (a :: rest) = Except.ok ((sliceStarts a.length n).map
      (fun i => (a :: rest).map (fun arr => listSlice arr i n))) := by
  have hall : (a :: rest).all (fun arr => arr.length == a.length) = true := by
    rw [List.all_eq_true]
    intro arr harr
    rcases List.mem_cons.mp harr with h | h
    · subst h; simp
    · simp [hlen arr h]
  simp [chunk_shuffle, hall, Nat.pos_iff_ne_zero.mp hn]

/-- C2: for every batch size n greater or equal 1 and every family of
input sequences sharing leading length L, chunks yields exactly
ceil(L / n) batches; batch j is the list of per-sequence slices starting
at index n * j of width n, every batch has slice length n except possibly
the last, and the batch slice lengths sum to L. -/
theorem chunks_batches_spec (n : Nat) (a : List α) (rest : List (List α))
    (cuda : Bool) (hn : 1 ≤ n) (hlen : ∀ arr ∈ rest, arr.length = a.length) :
    ∃ bs, chunks n (a :: rest) cuda = Except.ok bs ∧
      bs.length = (a.length + n - 1) / n ∧
      (∀ j, (hj : j < bs.length) →
        bs[j] = (a :: rest).map (fun arr => listSlice arr (n * j) n)) ∧
      (∀ j, (hj : j < bs.length) → ∀ sl ∈ bs[j],
        sl.length = min n (a.length - n * j)) ∧
      (∀ j, (hj : j < bs.length) → j + 1 < bs.length → ∀ sl ∈ bs[j],
        sl.length = n) ∧
      (bs.map (fun bb => (bb.headD []).length)).sum = a.length := by
  have hok := chunks_ok n a rest cuda hn hlen
  refine ⟨_, hok, ?_, ?_, ?_, ?_, ?_⟩
  · simp [length_sliceStarts]
  · intro j hj
    have hj2 : j < (sliceStarts a.length n).length := by
      simpa using hj
    have hj3 : j < ((a.length + n - 1) / n) := by
      simpa [length_sliceStarts] using hj2
    rw [List.getElem_map]
    congr 1
    simp [sliceStarts]
  · intro j hj sl hsl
    have hj2 : j < (sliceStarts a.length n).length := by
      simpa using hj
    rw [List.getElem_map] at hsl
    rcases List.mem_map.mp hsl with ⟨arr, harr, hslice⟩
    have harrlen : arr.length = a.length := by
      rcases List.mem_cons.mp harr with h | h
      · subst h; rfl
      · exact hlen arr h
    have hstart : (sliceStarts a.length n)[j] = n * j := by
      simp [sliceStarts]
    rw [← hslice, length_listSlice, harrlen, hstart]
  · intro j hj hjlast sl hsl
    have hj2 : j < (sliceStarts a.length n).length := by
      simpa using hj
    rw [List.getElem_map] at hsl
    rcases List.mem_map.mp hsl with ⟨arr, harr, hslice⟩
    have harrlen : arr.length = a.length := by
      rcases List.mem_cons.mp harr with h | h
      · subst h; rfl
      · exact hlen arr h
    have hstart : (sliceStarts a.length n)[j] = n * j := by
      simp [sliceStarts]
    have hlast : j + 1 < (a.length + n - 1) / n := by
      simpa [length_sliceStarts] using hjlast
    rw [← hslice, length_listSlice, harrlen, hstart,
      full_batch_of_not_last n a.length j hn hlast]
  · rw [List.map_map]
    have hfun : ((fun bb => (List.headD bb []).length)
          ∘ fun i => (a :: rest).map (fun arr => listSlice arr i n))
        = fun i => min n (a.length - i) := by
      funext i
      simp only [Function.comp_apply, List.map_cons, List.headD_cons]
      exact length_listSlice a i n
    rw [hfun, sum_min_starts n a.length hn]

/-- Witness for C2 at the spec's example: 100 rows, batch size 30. -/
theorem chunks_batches_spec_witness :
    ∃ bs, chunks 30 [List.range 100] false = Except.ok bs ∧
      bs.length = (100 + 30 - 1) / 30 ∧
      (∀ j, (hj : j < bs.length) →
        bs[j] = [List.range 100].map (fun arr => listSlice arr (30 * j) 30)) ∧
      (∀ j, (hj : j < bs.length) → ∀ sl ∈ bs[j],
        sl.length = min 30 (100 - 30 * j)) ∧
      (∀ j, (hj : j < bs.length) → j + 1 < bs.length → ∀ sl ∈ bs[j],
        sl.length = 30) ∧
      (bs.map (fun bb => (bb.headD []).length)).sum = 100 := by
  have h := chunks_batches_spec 30 (List.range 100) [] false (by omega)
    (by intro arr harr; simp at harr)
  simpa using h

/-- C3: whenever some input sequence's leading length differs from the
first one's, chunks and chunk_shuffle both fail with the shape-mismatch
assertion; in the Except embedding the error value carries no batches, so
the failure precedes any batch. -/
theorem chunks_mismatch_error (n : Nat) (a : List α) (rest : List (List α))
    (cuda : Bool) (h : ¬ ∀ arr ∈ rest, arr.length = a.length) :
    chunks n (a :: rest) cuda = Except.error shapeErr ∧
    chunk_shuffle n (a :: rest) = Except.error shapeErr := by
  have hall : (a :: rest).all (fun arr => arr.length == a.length) = false := by
    rw [Bool.eq_false_iff]
    intro hc
    apply h
    intro arr harr
    rw [List.all_eq_true] at hc
    have := hc arr (List.mem_cons_of_mem a harr)
    simpa using this
  constructor
  · simp [chunks, hall]
  · simp [chunk_shuffle, hall]

/-- Witness for C3: two sequences of lengths 2 and 1. -/
theorem chunks_mismatch_error_witness :
    chunks 1 [[0, 1], [0]] false = Except.error shapeErr ∧
    chunk_shuffle 1 [[0, 1], [0]] = Except.error shapeErr :=
  chunks_mismatch_error 1 [0, 1] [[0]] false (by decide)

/-- fitStep succeeds whenever print_every is nonzero, with the state
update and the trace it was defined with. -/
theorem fitStep_ok (env : Env α τ π γ ω) (s : Trainer τ π γ ω)
    (b : List (List α)) (hp : s.print_every ≠ 0) :
    fitStep env s b = Except.ok
      ({ s with
          grads := fitGrads env s b
          opt := fitOpt env s b
          params := fitParams env s b
          log := s.log ++ [fitRecord env s b]
          iteration := s.iteration + 1 }, fitEvents env s b) := by
  simp [fitStep, hp]

/-- Folding fitStep over a batch list: counters, log and preserved fields
after the fit loop. -/
theorem runBatches_fitStep (env : Env α τ π γ ω) (bs : List (List (List α))) :
    ∀ (s : Trainer τ π γ ω), s.print_every ≠ 0 →
    ∃ t evs recs,
      runBatches (fitStep env) s bs = Except.ok (t, evs) ∧
      t.trainMode = s.trainMode ∧
      t.epoch = s.epoch ∧
      t.previous_log = s.previous_log ∧
      t.print_every = s.print_every ∧
      t.batchsize = s.batchsize ∧
      t.seed = s.seed ∧
      t.iteration = s.iteration + bs.length ∧
      t.log = s.log ++ recs ∧
      recs.length = bs.length ∧
      recs.map (fun r => r.iteration) = List.range' s.iteration bs.length ∧
      recs.map (fun r => r.train) = List.replicate bs.length true := by
  induction bs with
  | nil =>
    intro s hp
    exact ⟨s, [], [], rfl, rfl, rfl, rfl, rfl, rfl, rfl, by simp, by simp,
      rfl, by simp, by simp⟩
  | cons b bs ih =>
    intro s hp
    obtain ⟨t, evs2, recs, hrun, hTM, hEp, hPL, hPE, hBS, hSeed, hIt, hLog,
      hLen, hTags, hTrain⟩ :=
      ih ({ s with
              grads := fitGrads env s b
              opt := fitOpt env s b
              params := fitParams env s b
              log := s.log ++ [fitRecord env s b]
              iteration := s.iteration + 1 }) hp
    refine ⟨t, fitEvents env s b ++ evs2, fitRecord env s b :: recs,
      ?_, hTM, hEp, hPL, hPE, hBS, hSeed, ?_, ?_, ?_, ?_, ?_⟩
    · simp [runBatches, fitStep_ok env s b hp, hrun]
    · rw [hIt]; simp; omega
    · rw [hLog]; simp
    · simp [hLen]
    · calc (fitRecord env s b :: recs).map (fun r => r.iteration)
          = s.iteration :: recs.map (fun r => r.iteration) := rfl
        _ = s.iteration :: List.range' (s.iteration + 1) bs.length := by
            rw [hTags]
        _ = List.range' s.iteration (bs.length + 1) := by
            rw [List.range'_succ]
    · calc (fitRecord env s b :: recs).map (fun r => r.train)
          = true :: recs.map (fun r => r.train) := rfl
        _ = true :: List.replicate bs.length true := by rw [hTrain]
        _ = List.replicate (bs.length + 1) true := rfl

/-- Selecting rows by in-bounds indices keeps one row per index. -/
theorem permuteBy_length (p : List Nat) (l : List α)
    (hp : ∀ i ∈ p, i < l.length) : (permuteBy p l).length = p.length := by
  induction p with
  | nil => rfl
  | cons i p ih =>
    have hi : i < l.length := hp i (by simp)
    have hget : l.get? i = some (l.get ⟨i, hi⟩) := List.get?_eq_get hi
    simp only [permuteBy, List.filterMap_cons, hget]
    simp only [List.length_cons]
    have := ih (fun j hj => hp j (by simp [hj]))
    simp only [permuteBy] at this
    rw [this]

/-- sklearn shuffle succeeds on equal-length arrays and permutes them all
with the one permutation drawn from the random_state. -/
theorem sklearnShuffle_ok (perm : Nat → Nat → List Nat) (rs : Nat)
    (a : List α) (rest : List (List α))
    (hlen : ∀ arr ∈ rest, arr.length = a.length) :
    sklearnShuffle perm rs (a :: rest)
      = Except.ok ((a :: rest).map (permuteBy (perm rs a.length))) := by
  have hall : (a :: rest).all (fun arr => arr.length == a.length) = true := by
    rw [List.all_eq_true]
    intro arr harr
    rcases List.mem_cons.mp harr with h | h
    · subst h; simp
    · simp [hlen arr h]
  simp [sklearnShuffle, hall]

/-- C1: one fit call on a valid dataset (at least features and labels, all
of one leading length) leaves the iteration counter equal to the number of
batches consumed, increments the epoch counter by exactly one, empties the
current log and grows the history by exactly the batch count.  The
validity hypotheses are the resting-state invariants of a Trainer: empty
current log, the constructor-positive batchsize and print_every, and the
sklearn guarantee that the drawn shuffle order is a permutation. -/
theorem fit_one_pass_counters (env : Env α τ π γ ω) (rs : Nat)
    (s : Trainer τ π γ ω) (a b0 : List α) (rest : List (List α))
    (hlog : s.log = [])
    (hn : 1 ≤ s.batchsize)
    (hpe : 1 ≤ s.print_every)
    (hlen : ∀ arr ∈ b0 :: rest, arr.length = a.length)
    (hperm : (env.shufflePerm rs a.length).Perm (List.range a.length)) :
    ∃ t tr, fit env rs s (a :: b0 :: rest) = Except.ok (t, tr) ∧
      t.iteration = (a.length + s.batchsize - 1) / s.batchsize ∧
      t.epoch = s.epoch + 1 ∧
      t.log = [] ∧
      t.previous_log.length
        = s.previous_log.length + (a.length + s.batchsize - 1) / s.batchsize := by
  have hp0 : s.print_every ≠ 0 := by omega
  have hbound : ∀ i ∈ env.shufflePerm rs a.length, i < a.length := by
    intro i hi
    have := hperm.mem_iff.mp hi
    simpa using this
  have hplen : (env.shufflePerm rs a.length).length = a.length := by
    have := hperm.length_eq
    simpa using this
  have hheadlen : (permuteBy (env.shufflePerm rs a.length) a).length = a.length := by
    rw [permuteBy_length _ _ hbound, hplen]
  have hsh := sklearnShuffle_ok env.shufflePerm rs a (b0 :: rest) hlen
  have hsh2 : sklearnShuffle env.shufflePerm rs (a :: b0 :: rest)
      = Except.ok (permuteBy (env.shufflePerm rs a.length) a
          :: permuteBy (env.shufflePerm rs a.length) b0
          :: rest.map (permuteBy (env.shufflePerm rs a.length))) := by
    rw [hsh]; simp
  have hlen2 : ∀ arr ∈ (permuteBy (env.shufflePerm rs a.length) b0
        :: rest.map (permuteBy (env.shufflePerm rs a.length))),
      arr.length = (permuteBy (env.shufflePerm rs a.length) a).length := by
    intro arr harr
    rw [hheadlen]
    rcases List.mem_cons.mp harr with h | h
    · subst h
      have hb0 : b0.length = a.length := hlen b0 (by simp)
      rw [permuteBy_length _ _ (by rw [hb0]; exact hbound), hplen]
    · rcases List.mem_map.mp h with ⟨arr0, harr0, hmap⟩
      have ha0 : arr0.length = a.length := hlen arr0 (by simp [harr0])
      rw [← hmap, permuteBy_length _ _ (by rw [ha0]; exact hbound), hplen]
  have hch := chunks_ok s.batchsize (permuteBy (env.shufflePerm rs a.length) a)
    (permuteBy (env.shufflePerm rs a.length) b0
      :: rest.map (permuteBy (env.shufflePerm rs a.length))) s.cuda
    (by omega) hlen2
  obtain ⟨t1, evs, recs, hrun, hTM, hEp, hPL, hPE, hBS, hSeed, hIt, hLog,
    hLen, hTags, hTrain⟩ :=
    runBatches_fitStep env
      ((sliceStarts (permuteBy (env.shufflePerm rs a.length) a).length
          s.batchsize).map
        (fun i => (permuteBy (env.shufflePerm rs a.length) a
          :: permuteBy (env.shufflePerm rs a.length) b0
          :: rest.map (permuteBy (env.shufflePerm rs a.length))).map
            (fun arr => listSlice arr i s.batchsize)))
      ({ s with trainMode := true, iteration := 0 }) hp0
  have hbslen : ((sliceStarts (permuteBy (env.shufflePerm rs a.length) a).length
        s.batchsize).map
        (fun i => (permuteBy (env.shufflePerm rs a.length) a
          :: permuteBy (env.shufflePerm rs a.length) b0
          :: rest.map (permuteBy (env.shufflePerm rs a.length))).map
            (fun arr => listSlice arr i s.batchsize))).length
      = (a.length + s.batchsize - 1) / s.batchsize := by
    simp [length_sliceStarts, hheadlen]
  refine ⟨{ t1 with
              epoch := t1.epoch + 1
              previous_log := t1.previous_log ++ t1.log
              log := []
              trainMode := false },
    Event.trainSet true :: Event.shuffleCall rs :: evs ++ [Event.trainSet false],
    ?_, ?_, ?_, ?_, ?_⟩
  · simp only [fit, hsh2, hch, hrun]
  · simpa [length_sliceStarts, hheadlen] using hIt
  · simpa using hEp
  · rfl
  · have hplog : t1.previous_log = s.previous_log := hPL
    have hlog1 : t1.log = recs := by
      rw [hLog]
      simp [hlog]
    simp only [hplog, hlog1, List.length_append]
    rw [hLen, hbslen]

/-- Witness for C1 at the spec's example: 100 rows of features and labels
with batch size 30, giving 4 batches. -/
theorem fit_one_pass_counters_witness :
    (100 + 30 - 1) / 30 = 4 ∧
    ∃ t tr, fit envN 7 { trainer0 with batchsize := 30 }
        [List.range 100, List.range 100] = Except.ok (t, tr) ∧
      t.iteration = 4 ∧ t.epoch = 1 ∧ t.log = [] ∧
      t.previous_log.length = 4 := by
  refine ⟨by norm_num, ?_⟩
  obtain ⟨t, tr, h1, h2, h3, h4, h5⟩ := fit_one_pass_counters envN 7
    { trainer0 with batchsize := 30 } (List.range 100) (List.range 100) []
    rfl (by decide) (by decide)
    (by intro arr h; rw [List.mem_singleton] at h; rw [h])
    (List.Perm.refl _)
  exact ⟨t, tr, h1, h2, h3, h4, h5⟩

/-- Recognizer for the optimizer-step call in a trace. -/
def isStepEv : Event α τ → Bool
  | Event.stepCall => true
  | _ => false

/-- Recognizer for the backward call in a trace. -/
def isBackwardEv : Event α τ → Bool
  | Event.backwardCall => true
  | _ => false

/-- testStep succeeds on a nonempty batch whenever print_every is nonzero,
with the state update and trace it was defined with. -/
theorem testStep_ok (env : Env α τ π γ ω) (s : Trainer τ π γ ω)
    (b : List (List α)) (tgt : List α) (htgt : b.getLast? = some tgt)
    (hp : s.print_every ≠ 0) :
    testStep env s b = Except.ok
      ({ s with
          grads := env.backward s.grads (testScalar env s b tgt)
          log := s.log ++ [testRecord env s b tgt]
          iteration := s.iteration + 1 }, testEvents env s b tgt) := by
  simp [testStep, htgt, hp]

/-- One test batch performs no optimizer step and exactly one backward. -/
theorem testEvents_counts (env : Env α τ π γ ω) (s : Trainer τ π γ ω)
    (b : List (List α)) (tgt : List α) :
    (testEvents env s b tgt).countP isStepEv = 0 ∧
    (testEvents env s b tgt).countP isBackwardEv = 1 := by
  unfold testEvents
  constructor <;>
    (split <;> simp [List.countP_cons, List.countP_append, isStepEv, isBackwardEv])

/-- Folding testStep over a batch list: optimizer state and model
parameters are untouched, no step call appears in the trace, one backward
per batch, counters and log as in fit. -/
theorem runBatches_testStep (env : Env α τ π γ ω) (bs : List (List (List α))) :
    ∀ (s : Trainer τ π γ ω), s.print_every ≠ 0 → (∀ b ∈ bs, b ≠ []) →
    ∃ t evs recs,
      runBatches (testStep env) s bs = Except.ok (t, evs) ∧
      t.trainMode = s.trainMode ∧
      t.params = s.params ∧
      t.opt = s.opt ∧
      t.epoch = s.epoch ∧
      t.previous_log = s.previous_log ∧
      t.print_every = s.print_every ∧
      t.batchsize = s.batchsize ∧
      t.iteration = s.iteration + bs.length ∧
      t.log = s.log ++ recs ∧
      recs.length = bs.length ∧
      recs.map (fun r => r.iteration) = List.range' s.iteration bs.length ∧
      recs.map (fun r => r.train) = List.replicate bs.length false ∧
      evs.countP isStepEv = 0 ∧
      evs.countP isBackwardEv = bs.length := by
  induction bs with
  | nil =>
    intro s hp hne
    exact ⟨s, [], [], rfl, rfl, rfl, rfl, rfl, rfl, rfl, rfl, by simp,
      by simp, rfl, by simp, by simp, by simp, by simp⟩
  | cons b bs ih =>
    intro s hp hne
    have hb : b ≠ [] := hne b (by simp)
    obtain ⟨tgt, htgt⟩ : ∃ tgt, b.getLast? = some tgt := by
      cases hgl : b.getLast? with
      | none => exact absurd (List.getLast?_eq_none_iff.mp hgl) hb
      | some tgt => exact ⟨tgt, rfl⟩
    obtain ⟨t, evs2, recs, hrun, hTM, hPar, hOpt, hEp, hPL, hPE, hBS, hIt,
      hLog, hLen, hTags, hTrain, hCnt0, hCnt1⟩ :=
      ih ({ s with
              grads := env.backward s.grads (testScalar env s b tgt)
              log := s.log ++ [testRecord env s b tgt]
              iteration := s.iteration + 1 }) hp
        (fun x hx => hne x (by simp [hx]))
    refine ⟨t, testEvents env s b tgt ++ evs2, testRecord env s b tgt :: recs,
      ?_, hTM, hPar, hOpt, hEp, hPL, hPE, hBS, ?_, ?_, ?_, ?_, ?_, ?_, ?_⟩
    · simp [runBatches, testStep_ok env s b tgt htgt hp, hrun]
    · rw [hIt]; simp; omega
    · rw [hLog]; simp
    · simp [hLen]
    · calc (testRecord env s b tgt :: recs).map (fun r => r.iteration)
          = s.iteration :: recs.map (fun r => r.iteration) := rfl
        _ = s.iteration :: List.range' (s.iteration + 1) bs.length := by
            rw [hTags]
        _ = List.range' s.iteration (bs.length + 1) := by
            rw [List.range'_succ]
    · calc (testRecord env s b tgt :: recs).map (fun r => r.train)
          = false :: recs.map (fun r => r.train) := rfl
        _ = false :: List.replicate bs.length false := by rw [hTrain]
        _ = List.replicate (bs.length + 1) false := rfl
    · rw [List.countP_append, hCnt0, (testEvents_counts env s b tgt).1]
    · rw [List.countP_append, hCnt1, (testEvents_counts env s b tgt).2]
      simp only [List.length_cons]
      omega

/-- C7: a test pass on a valid dataset never invokes optimizer.step, so
optimizer state and model parameters are unchanged, even though one
backward call per batch computes gradients; gradients are zeroed at the
start of the pass (the call right after train(False)) and are left zeroed
at its end. -/
theorem test_never_steps (env : Env α τ π γ ω) (s : Trainer τ π γ ω)
    (a : List α) (rest : List (List α))
    (hn : 1 ≤ s.batchsize) (hpe : 1 ≤ s.print_every)
    (hlen : ∀ arr ∈ rest, arr.length = a.length) :
    ∃ t tr, test env s (a :: rest) = Except.ok (t, tr) ∧
      tr.countP isStepEv = 0 ∧
      t.params = s.params ∧
      t.opt = s.opt ∧
      t.grads = env.zeroGrad ∧
      tr.get? 1 = some Event.zero_grad ∧
      tr.countP isBackwardEv = (a.length + s.batchsize - 1) / s.batchsize := by
  have hp0 : s.print_every ≠ 0 := by omega
  have hch := chunks_ok s.batchsize a rest s.cuda (by omega) hlen
  obtain ⟨t1, evs, recs, hrun, hTM, hPar, hOpt, hEp, hPL, hPE, hBS, hIt,
    hLog, hLen, hTags, hTrain, hCnt0, hCnt1⟩ :=
    runBatches_testStep env
      ((sliceStarts a.length s.batchsize).map
        (fun i => (a :: rest).map (fun arr => listSlice arr i s.batchsize)))
      ({ s with trainMode := false, iteration := 0, grads := env.zeroGrad })
      hp0
      (by
        intro b hbmem
        rcases List.mem_map.mp hbmem with ⟨i, hi, hmap⟩
        rw [← hmap]
        simp)
  refine ⟨{ t1 with
              grads := env.zeroGrad
              iteration := 0
              previous_log := t1.previous_log ++ t1.log
              log := []
              trainMode := true },
    Event.trainSet false :: Event.zero_grad :: evs
      ++ [Event.zero_grad, Event.trainSet true],
    ?_, ?_, hPar, hOpt, rfl, ?_, ?_⟩
  · simp only [test, hch, hrun]
  · simp [List.countP_cons, List.countP_append, isStepEv, hCnt0]
  · simp only [List.cons_append]
    rfl
  · simp only [List.countP_cons, List.countP_append, List.cons_append]
    rw [hCnt1]
    simp [isBackwardEv, length_sliceStarts]

/-- Witness for C7: three rows of features and labels, batch size 2. -/
theorem test_never_steps_witness :
    ∃ t tr, test envN { trainer0 with batchsize := 2 }
        [[5, 6, 7], [1, 2, 3]] = Except.ok (t, tr) ∧
      tr.countP isStepEv = 0 ∧
      t.params = 0 ∧
      t.opt = 0 ∧
      t.grads = envN.zeroGrad ∧
      tr.get? 1 = some Event.zero_grad ∧
      tr.countP isBackwardEv = 2 := by
  obtain ⟨t, tr, h1, h2, h3, h4, h5, h6, h7⟩ := test_never_steps envN
    { trainer0 with batchsize := 2 } [5, 6, 7] [[1, 2, 3]]
    (by decide) (by decide) (by decide)
  exact ⟨t, tr, h1, h2, h3, h4, h5, h6, h7⟩

/-- Any ok result of fitStep preserves the epoch counter and the history. -/
theorem fitStep_inv (env : Env α τ π γ ω) (s : Trainer τ π γ ω)
    (b : List (List α)) (t : Trainer τ π γ ω) (evs : List (Event α τ))
    (h : fitStep env s b = Except.ok (t, evs)) : t.epoch = s.epoch := by
  unfold fitStep at h
  split at h
  · cases h
  · simp only [Except.ok.injEq, Prod.mk.injEq] at h
    obtain ⟨h1, h2⟩ := h
    subst h1
    rfl

/-- Any ok result of testStep preserves the epoch counter. -/
theorem testStep_inv (env : Env α τ π γ ω) (s : Trainer τ π γ ω)
    (b : List (List α)) (t : Trainer τ π γ ω) (evs : List (Event α τ))
    (h : testStep env s b = Except.ok (t, evs)) : t.epoch = s.epoch := by
  unfold testStep at h
  split at h
  · cases h
  · split at h
    · cases h
    · simp only [Except.ok.injEq, Prod.mk.injEq] at h
      obtain ⟨h1, h2⟩ := h
      subst h1
      rfl

/-- A projection that every successful step of the loop body preserves is
preserved by the whole loop. -/
theorem runBatches_preserves {σ β ε X : Type}
    (f : σ → β → Except String (σ × List ε)) (g : σ → X)
    (hf : ∀ s b t evs, f s b = Except.ok (t, evs) → g t = g s)
    (bs : List β) : ∀ s t evs,
    runBatches f s bs = Except.ok (t, evs) → g t = g s := by
  induction bs with
  | nil =>
    intro s t evs h
    simp only [runBatches, Except.ok.injEq, Prod.mk.injEq] at h
    rw [← h.1]
  | cons b bs ih =>
    intro s t evs h
    unfold runBatches at h
    cases hfb : f s b with
    | error m =>
      simp only [hfb] at h
      exact Except.noConfusion h
    | ok r =>
      obtain ⟨s1, evs1⟩ := r
      simp only [hfb] at h
      cases hrun : runBatches f s1 bs with
      | error m =>
        simp only [hrun] at h
        exact Except.noConfusion h
      | ok r2 =>
        obtain ⟨t2, evs2⟩ := r2
        simp only [hrun, Except.ok.injEq, Prod.mk.injEq] at h
        obtain ⟨h1, h2⟩ := h
        subst h1
        rw [ih s1 t2 evs2 hrun, hf s b s1 evs1 hfb]

/-- Inversion of a successful fit call: the model is left in eval mode
(train(False) is the last collaborator call), the epoch counter went up by
exactly one and the current log was emptied. -/
theorem fit_ok_inv (env : Env α τ π γ ω) (rs : Nat) (s : Trainer τ π γ ω)
    (args : List (List α)) (t : Trainer τ π γ ω) (tr : List (Event α τ))
    (h : fit env rs s args = Except.ok (t, tr)) :
    t.trainMode = false ∧ t.epoch = s.epoch + 1 ∧ t.log = [] ∧
    tr.getLast? = some (Event.trainSet false) := by
  simp only [fit] at h
  cases hsh : sklearnShuffle env.shufflePerm rs args with
  | error m =>
    simp only [hsh] at h
    exact Except.noConfusion h
  | ok sh =>
    simp only [hsh] at h
    cases hch : chunks s.batchsize sh s.cuda with
    | error m =>
      simp only [hch] at h
      exact Except.noConfusion h
    | ok bs =>
      simp only [hch] at h
      cases hrun : runBatches (fitStep env)
          ({ s with trainMode := true, iteration := 0 }) bs with
      | error m =>
        simp only [hrun] at h
        exact Except.noConfusion h
      | ok r =>
        obtain ⟨t1, evs⟩ := r
        simp only [hrun, Except.ok.injEq, Prod.mk.injEq] at h
        obtain ⟨h1, h2⟩ := h
        subst h1
        subst h2
        have hEp : t1.epoch = s.epoch :=
          runBatches_preserves (fitStep env) (fun x => x.epoch)
            (fun s0 b0 t0 e0 hstep => fitStep_inv env s0 b0 t0 e0 hstep)
            bs ({ s with trainMode := true, iteration := 0 }) t1 evs hrun
        refine ⟨rfl, ?_, rfl, ?_⟩
        · show t1.epoch + 1 = s.epoch + 1
          rw [hEp]
        · exact List.getLast?_concat _

/-- C5 counterexample: a concrete fit call on a valid dataset ends with
the model switched to eval mode, refuting that the final state is
train-on. -/
theorem fit_train_mode_cex :
    (fit envN 0 trainer0 [[1, 2], [3, 4]]).map (fun r => r.1.trainMode)
      = Except.ok false := by
  rfl

/-- C5 amended: after every successful fit call the model is left in eval
mode: the last collaborator call of fit is train(False) and the final
train flag is off (the source line 96 is model.train(False); it is test
that ends by switching back to train mode). -/
theorem fit_sets_eval_mode (env : Env α τ π γ ω) (rs : Nat)
    (s : Trainer τ π γ ω) (args : List (List α)) (t : Trainer τ π γ ω)
    (tr : List (Event α τ)) (h : fit env rs s args = Except.ok (t, tr)) :
    t.trainMode = false ∧ tr.getLast? = some (Event.trainSet false) :=
  ⟨(fit_ok_inv env rs s args t tr h).1, (fit_ok_inv env rs s args t tr h).2.2.2⟩

/-- Witness for the amended C5 at a concrete fit call. -/
theorem fit_sets_eval_mode_witness :
    ∃ t tr, fit envN 0 trainer0 [[1, 2], [3, 4]] = Except.ok (t, tr) ∧
      t.trainMode = false ∧ tr.getLast? = some (Event.trainSet false) := by
  refine ⟨_, _, rfl, ?_⟩
  exact fit_sets_eval_mode envN 0 trainer0 [[1, 2], [3, 4]] _ _ rfl

/-- seqFrameStep succeeds exactly when the frame index is within every
row of the input and label slices, with the state update and trace it was
defined with. -/
theorem seqFrameStep_ok [Inhabited α] (env : SeqEnv α τ π γ ω)
    (xb yb : List (List α)) (st : Trainer τ π γ ω × Option (Frame α τ))
    (f : Nat)
    (hx : xb.all (fun row => f < row.length) = true)
    (hy : yb.all (fun row => f < row.length) = true) :
    seqFrameStep env xb yb st f = Except.ok
      (({ st.1 with
            grads := seqGrads env st.1 xb yb f
            opt := (seqOptParams env st.1 xb yb f).1
            params := (seqOptParams env st.1 xb yb f).2 },
        some (frameCol xb f, frameCol yb f, seqPred env st.1 xb f,
              seqLoss env st.1 xb yb f)),
       seqFrameEvents env st.1 xb yb f) := by
  simp [seqFrameStep, hx, hy]

/-- Any ok result of seqFrameStep preserves every Trainer bookkeeping
field and leaves the frame locals bound. -/
theorem seqFrameStep_inv [Inhabited α] (env : SeqEnv α τ π γ ω)
    (xb yb : List (List α)) (st : Trainer τ π γ ω × Option (Frame α τ))
    (f : Nat) (st1 : Trainer τ π γ ω × Option (Frame α τ))
    (evs : List (SeqEvent α τ))
    (h : seqFrameStep env xb yb st f = Except.ok (st1, evs)) :
    st1.1.epoch = st.1.epoch ∧ st1.1.iteration = st.1.iteration ∧
    st1.1.log = st.1.log ∧ st1.1.previous_log = st.1.previous_log ∧
    st1.1.print_every = st.1.print_every ∧
    st1.1.batchsize = st.1.batchsize ∧
    st1.2.isSome = true := by
  unfold seqFrameStep at h
  split at h
  · split at h
    · simp only [Except.ok.injEq, Prod.mk.injEq] at h
      obtain ⟨h1, h2⟩ := h
      rw [← h1]
      exact ⟨rfl, rfl, rfl, rfl, rfl, rfl, rfl⟩
    · cases h
  · cases h

/-- Any ok run of the inner time-step loop preserves every Trainer
bookkeeping field. -/
theorem runFrames_inv [Inhabited α] (env : SeqEnv α τ π γ ω)
    (xb yb : List (List α)) (fs : List Nat) :
    ∀ (st st1 : Trainer τ π γ ω × Option (Frame α τ))
      (evs : List (SeqEvent α τ)),
    runFrames env xb yb st fs = Except.ok (st1, evs) →
      st1.1.epoch = st.1.epoch ∧ st1.1.iteration = st.1.iteration ∧
      st1.1.log = st.1.log ∧ st1.1.previous_log = st.1.previous_log ∧
      st1.1.print_every = st.1.print_every ∧
      st1.1.batchsize = st.1.batchsize := by
  induction fs with
  | nil =>
    intro st st1 evs h
    simp only [runFrames, runBatches, Except.ok.injEq, Prod.mk.injEq] at h
    rw [← h.1]
    exact ⟨rfl, rfl, rfl, rfl, rfl, rfl⟩
  | cons f fs ih =>
    intro st st1 evs h
    unfold runFrames runBatches at h
    cases hfb : seqFrameStep env xb yb st f with
    | error m =>
      simp only [hfb] at h
      exact Except.noConfusion h
    | ok r =>
      obtain ⟨stm, evs1⟩ := r
      simp only [hfb] at h
      cases hrun : runBatches (seqFrameStep env xb yb) stm fs with
      | error m =>
        simp only [hrun] at h
        exact Except.noConfusion h
      | ok r2 =>
        obtain ⟨st2, evs2⟩ := r2
        simp only [hrun, Except.ok.injEq, Prod.mk.injEq] at h
        obtain ⟨h1, h2⟩ := h
        subst h1
        have hstep := seqFrameStep_inv env xb yb st f stm evs1 hfb
        have hrest := ih stm st2 evs2 hrun
        exact ⟨hrest.1.trans hstep.1, hrest.2.1.trans hstep.2.1,
          hrest.2.2.1.trans hstep.2.2.1,
          hrest.2.2.2.1.trans hstep.2.2.2.1,
          hrest.2.2.2.2.1.trans hstep.2.2.2.2.1,
          hrest.2.2.2.2.2.trans hstep.2.2.2.2.2.1⟩

/-- The inner time-step loop succeeds when every frame index is within
every row of the input and label slices; bookkeeping fields are preserved
and the frame locals end bound whenever they started bound or at least
one step ran. -/
theorem runFrames_ok [Inhabited α] (env : SeqEnv α τ π γ ω)
    (xb yb : List (List α)) (fs : List Nat) :
    ∀ st : Trainer τ π γ ω × Option (Frame α τ),
      (∀ f ∈ fs, xb.all (fun row => f < row.length) = true ∧
                 yb.all (fun row => f < row.length) = true) →
      ∃ st1 evs, runFrames env xb yb st fs = Except.ok (st1, evs) ∧
        st1.1.epoch = st.1.epoch ∧ st1.1.iteration = st.1.iteration ∧
        st1.1.log = st.1.log ∧ st1.1.previous_log = st.1.previous_log ∧
        st1.1.print_every = st.1.print_every ∧
        st1.1.batchsize = st.1.batchsize ∧
        ((st.2.isSome = true ∨ fs ≠ []) → st1.2.isSome = true) := by
  induction fs with
  | nil =>
    intro st hb
    refine ⟨st, [], rfl, rfl, rfl, rfl, rfl, rfl, rfl, ?_⟩
    intro hd
    rcases hd with hd | hd
    · exact hd
    · exact absurd rfl hd
  | cons f fs ih =>
    intro st hb
    have hx := (hb f (by simp)).1
    have hy := (hb f (by simp)).2
    have hstep := seqFrameStep_ok env xb yb st f hx hy
    obtain ⟨st1, evs2, hrun, hEp, hIt, hLog, hPL, hPE, hBS, hSome⟩ :=
      ih ({ st.1 with
              grads := seqGrads env st.1 xb yb f
              opt := (seqOptParams env st.1 xb yb f).1
              params := (seqOptParams env st.1 xb yb f).2 },
          some (frameCol xb f, frameCol yb f, seqPred env st.1 xb f,
                seqLoss env st.1 xb yb f))
        (fun g hg => hb g (by simp [hg]))
    have hrun2 : runBatches (seqFrameStep env xb yb)
        ({ st.1 with
             grads := seqGrads env st.1 xb yb f
             opt := (seqOptParams env st.1 xb yb f).1
             params := (seqOptParams env st.1 xb yb f).2 },
         some (frameCol xb f, frameCol yb f, seqPred env st.1 xb f,
               seqLoss env st.1 xb yb f)) fs = Except.ok (st1, evs2) := hrun
    refine ⟨st1, seqFrameEvents env st.1 xb yb f ++ evs2, ?_,
      hEp, hIt, hLog, hPL, hPE, hBS, ?_⟩
    · show runBatches (seqFrameStep env xb yb) st (f :: fs) = _
      simp only [runBatches, hstep, hrun2]
    · intro hd
      exact hSome (Or.inl rfl)

/-- fitSeqBatch succeeds when print_every is nonzero, every executed
frame index lies within the rows of the batch, and the batch runs at
least one time step or inherits leftover locals; the iteration counter
goes up by one without being reset and one record tagged with the
incoming counters is appended. -/
theorem fitSeqBatch_ok [Inhabited α] (env : SeqEnv α τ π γ ω)
    (st : Trainer τ π γ ω × Option (Frame α τ))
    (b : List (List α) × List (List α) × List Nat)
    (hp : st.1.print_every ≠ 0)
    (hs : st.2.isSome = true ∨ b.2.2.foldl max 0 ≠ 0)
    (hw : ∀ f ∈ List.range (b.2.2.foldl max 0),
      b.1.all (fun row => f < row.length) = true ∧
      b.2.1.all (fun row => f < row.length) = true) :
    ∃ t fr evs rec,
      fitSeqBatch env st b = Except.ok ((t, some fr), evs) ∧
      t.epoch = st.1.epoch ∧
      t.iteration = st.1.iteration + 1 ∧
      t.log = st.1.log ++ [rec] ∧
      rec.iteration = st.1.iteration ∧
      rec.epoch = st.1.epoch ∧
      rec.train = true ∧
      t.previous_log = st.1.previous_log ∧
      t.print_every = st.1.print_every ∧
      t.batchsize = st.1.batchsize := by
  obtain ⟨st1, evs0, hrun, hEp, hIt, hLog, hPL, hPE, hBS, hSome⟩ :=
    runFrames_ok env b.1 b.2.1 (List.range (b.2.2.foldl max 0)) st hw
  have hsome2 : st1.2.isSome = true := by
    apply hSome
    rcases hs with h | h
    · exact Or.inl h
    · right
      rw [Ne, List.range_eq_nil]
      exact h
  obtain ⟨fr, hfr⟩ := Option.isSome_iff_exists.mp hsome2
  have heq : fitSeqBatch env st b = Except.ok
      (({ st1.1 with
            log := st1.1.log ++ [seqRecordOf env st1.1 fr]
            iteration := st1.1.iteration + 1 },
        some fr),
       evs0 ++ [SeqEvent.cbRun]
         ++ (if st1.1.iteration % st1.1.print_every = 0
             then [SeqEvent.printL] else [])) := by
    unfold fitSeqBatch
    simp only [hrun, hfr]
    rw [if_neg (show ¬ st1.1.print_every = 0 from by rw [hPE]; exact hp)]
  refine ⟨_, fr, _, seqRecordOf env st1.1 fr, heq, ?_, ?_, ?_, ?_, ?_, rfl,
    ?_, ?_, ?_⟩
  · exact hEp
  · show st1.1.iteration + 1 = st.1.iteration + 1
    rw [hIt]
  · show st1.1.log ++ [seqRecordOf env st1.1 fr]
        = st.1.log ++ [seqRecordOf env st1.1 fr]
    rw [hLog]
  · exact hIt
  · exact hEp
  · exact hPL
  · exact hPE
  · exact hBS

/-- Any ok result of fitSeqBatch preserves the epoch counter. -/
theorem fitSeqBatch_inv [Inhabited α] (env : SeqEnv α τ π γ ω)
    (st : Trainer τ π γ ω × Option (Frame α τ))
    (b : List (List α) × List (List α) × List Nat)
    (st2 : Trainer τ π γ ω × Option (Frame α τ)) (evs : List (SeqEvent α τ))
    (h : fitSeqBatch env st b = Except.ok (st2, evs)) :
    st2.1.epoch = st.1.epoch := by
  unfold fitSeqBatch at h
  cases hrun : runFrames env b.1 b.2.1 st (List.range (b.2.2.foldl max 0)) with
  | error m =>
    simp only [hrun] at h
    exact Except.noConfusion h
  | ok r =>
    obtain ⟨r1, revs⟩ := r
    simp only [hrun] at h
    split at h
    · cases h
    · split at h
      · cases h
      · simp only [Except.ok.injEq, Prod.mk.injEq] at h
        obtain ⟨h1, h2⟩ := h
        rw [← h1]
        exact (runFrames_inv env b.1 b.2.1 (List.range (b.2.2.foldl max 0))
          st r1 revs hrun).1

/-- Folding fitSeqBatch over the batch list: the iteration counter starts
from its incoming value (no reset) and the records are tagged from that
value on. -/
theorem runBatches_fitSeqBatch [Inhabited α] (env : SeqEnv α τ π γ ω)
    (bs : List (List (List α) × List (List α) × List Nat)) :
    ∀ (st : Trainer τ π γ ω × Option (Frame α τ)),
      st.1.print_every ≠ 0 →
      (∀ b ∈ bs, b.2.2.foldl max 0 ≠ 0) →
      (∀ b ∈ bs, ∀ f ∈ List.range (b.2.2.foldl max 0),
        b.1.all (fun row => f < row.length) = true ∧
        b.2.1.all (fun row => f < row.length) = true) →
      ∃ t fr2 evs recs,
        runBatches (fitSeqBatch env) st bs = Except.ok ((t, fr2), evs) ∧
        t.epoch = st.1.epoch ∧
        t.previous_log = st.1.previous_log ∧
        t.print_every = st.1.print_every ∧
        t.batchsize = st.1.batchsize ∧
        t.iteration = st.1.iteration + bs.length ∧
        t.log = st.1.log ++ recs ∧
        recs.length = bs.length ∧
        recs.map (fun r => r.iteration) = List.range' st.1.iteration bs.length ∧
        recs.map (fun r => r.train) = List.replicate bs.length true := by
  induction bs with
  | nil =>
    intro st hp hb hw
    exact ⟨st.1, st.2, [], [], rfl, rfl, rfl, rfl, rfl, by simp, by simp,
      rfl, by simp, by simp⟩
  | cons b bs ih =>
    intro st hp hb hw
    obtain ⟨t1, fr1, evs1, rec1, hstep, hEp1, hIt1, hLog1, hRit, hRep, hRtr,
      hPL1, hPE1, hBS1⟩ := fitSeqBatch_ok env st b hp (Or.inr (hb b (by simp)))
      (hw b (by simp))
    obtain ⟨t2, fr2, evs2, recs, hrun, hEp2, hPL2, hPE2, hBS2, hIt2, hLog2,
      hLen2, hTags2, hTrain2⟩ := ih (t1, some fr1)
      (by show t1.print_every ≠ 0; rw [hPE1]; exact hp)
      (fun x hx => hb x (by simp [hx]))
      (fun x hx => hw x (by simp [hx]))
    have hIt1p : (t1, some fr1).1.iteration = st.1.iteration + 1 := hIt1
    refine ⟨t2, fr2, evs1 ++ evs2, rec1 :: recs,
      ?_, ?_, ?_, ?_, ?_, ?_, ?_, ?_, ?_, ?_⟩
    · simp [runBatches, hstep, hrun]
    · rw [hEp2]; exact hEp1
    · rw [hPL2]; exact hPL1
    · rw [hPE2]; exact hPE1
    · rw [hBS2]; exact hBS1
    · rw [hIt2]
      show t1.iteration + bs.length = st.1.iteration + (b :: bs).length
      simp only [List.length_cons]
      omega
    · rw [hLog2]
      show t1.log ++ recs = st.1.log ++ (rec1 :: recs)
      rw [hLog1]
      simp
    · simp [hLen2]
    · calc (rec1 :: recs).map (fun r => r.iteration)
          = rec1.iteration :: recs.map (fun r => r.iteration) := rfl
        _ = st.1.iteration :: recs.map (fun r => r.iteration) := by rw [hRit]
        _ = st.1.iteration :: List.range' (st.1.iteration + 1) bs.length := by
            rw [hTags2, hIt1p]
        _ = List.range' st.1.iteration (bs.length + 1) := by
            rw [List.range'_succ]
    · calc (rec1 :: recs).map (fun r => r.train)
          = rec1.train :: recs.map (fun r => r.train) := rfl
        _ = true :: List.replicate bs.length true := by rw [hRtr, hTrain2]
        _ = List.replicate (bs.length + 1) true := rfl

/-- Either the accumulator survives the foldl max or the result is an
element of the list. -/
theorem foldl_max_mem (l : List Nat) :
    ∀ acc, l.foldl max acc = acc ∨ l.foldl max acc ∈ l := by
  induction l with
  | nil =>
    intro acc
    exact Or.inl rfl
  | cons y l ih =>
    intro acc
    rcases ih (max acc y) with h | h
    · rcases Nat.le_total acc y with hy | hy
      · right
        show l.foldl max (max acc y) ∈ y :: l
        rw [h, Nat.max_eq_right hy]
        exact List.mem_cons_self y l
      · left
        show l.foldl max (max acc y) = acc
        rw [h, Nat.max_eq_left hy]
    · right
      exact List.mem_cons_of_mem y h

/-- The accumulator and every member of the list bound its foldl max. -/
theorem foldl_max_ge (l : List Nat) :
    ∀ acc, acc ≤ l.foldl max acc ∧ ∀ x ∈ l, x ≤ l.foldl max acc := by
  induction l with
  | nil =>
    intro acc
    exact ⟨le_rfl, by simp⟩
  | cons y l ih =>
    intro acc
    constructor
    · calc acc ≤ max acc y := le_max_left _ _
        _ ≤ l.foldl max (max acc y) := (ih (max acc y)).1
    · intro x hx
      rcases List.mem_cons.mp hx with h | h
      · subst h
        calc x ≤ max acc x := le_max_right _ _
          _ ≤ l.foldl max (max acc x) := (ih (max acc x)).1
      · exact (ih (max acc y)).2 x h

/-- Every start index produced by sliceStarts is below the length. -/
theorem sliceStarts_lt (n len : Nat) (hn : 0 < n) :
    ∀ i ∈ sliceStarts len n, i < len := by
  intro i hi
  rw [sliceStarts, List.mem_range'] at hi
  obtain ⟨j, hj, hi2⟩ := hi
  subst hi2
  have hL : 0 < len := by
    by_contra hL0
    have hlen0 : len = 0 := by omega
    subst hlen0
    have hz : (0 + n - 1) / n = 0 := by
      rw [Nat.zero_add]
      exact Nat.div_eq_of_lt (by omega)
    omega
  have hk : (len + n - 1) / n = (len - 1) / n + 1 := by
    have h2 : len + n - 1 = (len - 1) + n := by omega
    rw [h2, Nat.add_div_right _ hn]
  have hj2 : j ≤ (len - 1) / n := by omega
  have h3 : n * j ≤ n * ((len - 1) / n) := Nat.mul_le_mul_left n hj2
  have h4 : n * ((len - 1) / n) ≤ len - 1 := Nat.mul_div_le (len - 1) n
  omega

/-- Every element of a slice is an element of the sliced list. -/
theorem mem_of_mem_listSlice (l : List α) (i n : Nat) :
    ∀ x ∈ listSlice l i n, x ∈ l := by
  intro x hx
  unfold listSlice at hx
  exact List.mem_of_mem_drop (List.mem_of_mem_take hx)

/-- Any ok result of fit_sequence increments the epoch counter by exactly
one. -/
theorem fitSequence_ok_inv [Inhabited α] (env : SeqEnv α τ π γ ω)
    (s : Trainer τ π γ ω) (inputs labels : List (List α)) (lengths : List Nat)
    (t : Trainer τ π γ ω) (tr : List (SeqEvent α τ))
    (h : fitSequence env s inputs labels lengths = Except.ok (t, tr)) :
    t.epoch = s.epoch + 1 := by
  simp only [fitSequence] at h
  split at h
  · split at h
    · cases h
    · cases hrun : runBatches (fitSeqBatch env) (s, (none : Option (Frame α τ)))
          ((sliceStarts inputs.length s.batchsize).map
            (fun i => (listSlice inputs i s.batchsize,
                       listSlice labels i s.batchsize,
                       listSlice lengths i s.batchsize))) with
      | error m =>
        simp only [hrun] at h
        exact Except.noConfusion h
      | ok r =>
        obtain ⟨st1, evs⟩ := r
        simp only [hrun, Except.ok.injEq, Prod.mk.injEq] at h
        obtain ⟨h1, h2⟩ := h
        rw [← h1]
        show st1.1.epoch + 1 = s.epoch + 1
        have hpres : st1.1.epoch = s.epoch := runBatches_preserves
          (fitSeqBatch env) (fun x => x.1.epoch)
          (fun s0 b0 t0 e0 hstep => fitSeqBatch_inv env s0 b0 t0 e0 hstep)
          _ _ _ _ hrun
        rw [hpres]
  · cases h

/-- Any ok result of test preserves the epoch counter. -/
theorem test_ok_inv (env : Env α τ π γ ω) (s : Trainer τ π γ ω)
    (args : List (List α)) (t : Trainer τ π γ ω) (tr : List (Event α τ))
    (h : test env s args = Except.ok (t, tr)) :
    t.epoch = s.epoch ∧ t.trainMode = true ∧ t.iteration = 0 ∧ t.log = [] := by
  simp only [test] at h
  cases hch : chunks s.batchsize args s.cuda with
  | error m =>
    simp only [hch] at h
    exact Except.noConfusion h
  | ok bs =>
    simp only [hch] at h
    cases hrun : runBatches (testStep env)
        ({ s with trainMode := false, iteration := 0, grads := env.zeroGrad })
        bs with
    | error m =>
      simp only [hrun] at h
      exact Except.noConfusion h
    | ok r =>
      obtain ⟨t1, evs⟩ := r
      simp only [hrun, Except.ok.injEq, Prod.mk.injEq] at h
      obtain ⟨h1, h2⟩ := h
      subst h1
      have hEp : t1.epoch = s.epoch :=
        runBatches_preserves (testStep env) (fun x => x.epoch)
          (fun s0 b0 t0 e0 hstep => testStep_inv env s0 b0 t0 e0 hstep)
          bs ({ s with trainMode := false, iteration := 0, grads := env.zeroGrad })
          t1 evs hrun
      exact ⟨hEp, rfl, rfl, rfl⟩

/-- Full run of fit_sequence on consistent arrays with positive sequence
lengths: the epoch goes up by one, the iteration counter continues from
its incoming value (no reset) and the new records are tagged from that
value on. -/
theorem fitSequence_run (env : SeqEnv α τ π γ ω) [Inhabited α]
    (s : Trainer τ π γ ω) (inputs labels : List (List α)) (lengths : List Nat)
    (hlab : labels.length = inputs.length)
    (hlen : lengths.length = inputs.length)
    (hn : 1 ≤ s.batchsize)
    (hpe : 1 ≤ s.print_every)
    (hpos : ∀ x ∈ lengths, 1 ≤ x)
    (hwx : ∀ row ∈ inputs, ∀ x ∈ lengths, x ≤ row.length)
    (hwy : ∀ row ∈ labels, ∀ x ∈ lengths, x ≤ row.length) :
    ∃ t tr recs,
      fitSequence env s inputs labels lengths = Except.ok (t, tr) ∧
      t.epoch = s.epoch + 1 ∧
      t.iteration = s.iteration
        + (inputs.length + s.batchsize - 1) / s.batchsize ∧
      t.log = [] ∧
      t.previous_log = s.previous_log ++ s.log ++ recs ∧
      recs.length = (inputs.length + s.batchsize - 1) / s.batchsize ∧
      recs.map (fun r => r.iteration)
        = List.range' s.iteration
            ((inputs.length + s.batchsize - 1) / s.batchsize) := by
  have hmax : ∀ b ∈ (sliceStarts inputs.length s.batchsize).map
      (fun i => (listSlice inputs i s.batchsize,
                 listSlice labels i s.batchsize,
                 listSlice lengths i s.batchsize)),
      b.2.2.foldl max 0 ≠ 0 := by
    intro b hb
    rcases List.mem_map.mp hb with ⟨i, hi, hbeq⟩
    subst hbeq
    have hilt : i < inputs.length :=
      sliceStarts_lt s.batchsize inputs.length (by omega) i hi
    have hslice : 1 ≤ (listSlice lengths i s.batchsize).length := by
      rw [length_listSlice, hlen]
      exact le_min (by omega) (by omega)
    obtain ⟨x0, hx0⟩ : ∃ x0, x0 ∈ listSlice lengths i s.batchsize :=
      List.exists_mem_of_ne_nil _ (by
        intro hnil
        rw [hnil] at hslice
        simp at hslice)
    have hx0pos : 1 ≤ x0 :=
      hpos x0 (mem_of_mem_listSlice lengths i s.batchsize x0 hx0)
    have hle := (foldl_max_ge (listSlice lengths i s.batchsize) 0).2 x0 hx0
    show (listSlice lengths i s.batchsize).foldl max 0 ≠ 0
    omega
  have hwbs : ∀ b ∈ (sliceStarts inputs.length s.batchsize).map
      (fun i => (listSlice inputs i s.batchsize,
                 listSlice labels i s.batchsize,
                 listSlice lengths i s.batchsize)),
      ∀ f ∈ List.range (b.2.2.foldl max 0),
        b.1.all (fun row => f < row.length) = true ∧
        b.2.1.all (fun row => f < row.length) = true := by
    intro b hb f hf
    rcases List.mem_map.mp hb with ⟨i, hi, hbeq⟩
    subst hbeq
    rw [List.mem_range] at hf
    have hf2 : f < (listSlice lengths i s.batchsize).foldl max 0 := hf
    rcases foldl_max_mem (listSlice lengths i s.batchsize) 0 with hm | hm
    · rw [hm] at hf2
      omega
    · have hmlen : (listSlice lengths i s.batchsize).foldl max 0 ∈ lengths :=
        mem_of_mem_listSlice lengths i s.batchsize _ hm
      constructor
      · rw [List.all_eq_true]
        intro row hrow
        have hrow2 : row ∈ inputs :=
          mem_of_mem_listSlice inputs i s.batchsize row hrow
        have hle2 := hwx row hrow2 _ hmlen
        simp only [decide_eq_true_eq]
        omega
      · rw [List.all_eq_true]
        intro row hrow
        have hrow2 : row ∈ labels :=
          mem_of_mem_listSlice labels i s.batchsize row hrow
        have hle2 := hwy row hrow2 _ hmlen
        simp only [decide_eq_true_eq]
        omega
  obtain ⟨t1, fr2, evs, recs, hrun, hEp, hPL, hPE, hBS, hIt, hLog, hLen,
    hTags, hTrain⟩ :=
    runBatches_fitSeqBatch env
      ((sliceStarts inputs.length s.batchsize).map
        (fun i => (listSlice inputs i s.batchsize,
                   listSlice labels i s.batchsize,
                   listSlice lengths i s.batchsize)))
      (s, none) (by show s.print_every ≠ 0; omega) hmax hwbs
  have hbslen : ((sliceStarts inputs.length s.batchsize).map
      (fun i => (listSlice inputs i s.batchsize,
                 listSlice labels i s.batchsize,
                 listSlice lengths i s.batchsize))).length
      = (inputs.length + s.batchsize - 1) / s.batchsize := by
    simp [length_sliceStarts]
  refine ⟨{ t1 with
              epoch := t1.epoch + 1
              previous_log := t1.previous_log ++ t1.log
              log := [] }, evs, recs, ?_, ?_, ?_, rfl, ?_, ?_, ?_⟩
  · simp only [fitSequence]
    rw [if_pos ⟨hlab, hlen⟩, if_neg (show ¬ s.batchsize = 0 by omega), hrun]
  · show t1.epoch + 1 = s.epoch + 1
    rw [hEp]
  · show t1.iteration = s.iteration
        + (inputs.length + s.batchsize - 1) / s.batchsize
    rw [hIt, hbslen]
  · show t1.previous_log ++ t1.log = s.previous_log ++ s.log ++ recs
    rw [hPL, hLog]
    show s.previous_log ++ (s.log ++ recs) = s.previous_log ++ s.log ++ recs
    rw [List.append_assoc]
  · rw [hLen, hbslen]
  · rw [hTags, hbslen]

/-- Full run of fit exposing the iteration tags of the new history
records: the counter is reset to zero at the start, so the tags are
0, 1, ..., batches-1. -/
theorem fit_run_tags (env : Env α τ π γ ω) (rs : Nat)
    (s : Trainer τ π γ ω) (a b0 : List α) (rest : List (List α))
    (hlog : s.log = [])
    (hn : 1 ≤ s.batchsize)
    (hpe : 1 ≤ s.print_every)
    (hlen : ∀ arr ∈ b0 :: rest, arr.length = a.length)
    (hperm : (env.shufflePerm rs a.length).Perm (List.range a.length)) :
    ∃ t tr recs, fit env rs s (a :: b0 :: rest) = Except.ok (t, tr) ∧
      t.iteration = (a.length + s.batchsize - 1) / s.batchsize ∧
      t.previous_log = s.previous_log ++ recs ∧
      recs.length = (a.length + s.batchsize - 1) / s.batchsize ∧
      recs.map (fun r => r.iteration)
        = List.range ((a.length + s.batchsize - 1) / s.batchsize) := by
  have hp0 : s.print_every ≠ 0 := by omega
  have hbound : ∀ i ∈ env.shufflePerm rs a.length, i < a.length := by
    intro i hi
    have := hperm.mem_iff.mp hi
    simpa using this
  have hplen : (env.shufflePerm rs a.length).length = a.length := by
    have := hperm.length_eq
    simpa using this
  have hheadlen : (permuteBy (env.shufflePerm rs a.length) a).length = a.length := by
    rw [permuteBy_length _ _ hbound, hplen]
  have hsh := sklearnShuffle_ok env.shufflePerm rs a (b0 :: rest) hlen
  have hsh2 : sklearnShuffle env.shufflePerm rs (a :: b0 :: rest)
      = Except.ok (permuteBy (env.shufflePerm rs a.length) a
          :: permuteBy (env.shufflePerm rs a.length) b0
          :: rest.map (permuteBy (env.shufflePerm rs a.length))) := by
    rw [hsh]; simp
  have hlen2 : ∀ arr ∈ (permuteBy (env.shufflePerm rs a.length) b0
        :: rest.map (permuteBy (env.shufflePerm rs a.length))),
      arr.length = (permuteBy (env.shufflePerm rs a.length) a).length := by
    intro arr harr
    rw [hheadlen]
    rcases List.mem_cons.mp harr with h | h
    · subst h
      have hb0 : b0.length = a.length := hlen b0 (by simp)
      rw [permuteBy_length _ _ (by rw [hb0]; exact hbound), hplen]
    · rcases List.mem_map.mp h with ⟨arr0, harr0, hmap⟩
      have ha0 : arr0.length = a.length := hlen arr0 (by simp [harr0])
      rw [← hmap, permuteBy_length _ _ (by rw [ha0]; exact hbound), hplen]
  have hch := chunks_ok s.batchsize (permuteBy (env.shufflePerm rs a.length) a)
    (permuteBy (env.shufflePerm rs a.length) b0
      :: rest.map (permuteBy (env.shufflePerm rs a.length))) s.cuda
    (by omega) hlen2
  obtain ⟨t1, evs, recs, hrun, hTM, hEp, hPL, hPE, hBS, hSeed, hIt, hLog,
    hLen, hTags, hTrain⟩ :=
    runBatches_fitStep env
      ((sliceStarts (permuteBy (env.shufflePerm rs a.length) a).length
          s.batchsize).map
        (fun i => (permuteBy (env.shufflePerm rs a.length) a
          :: permuteBy (env.shufflePerm rs a.length) b0
          :: rest.map (permuteBy (env.shufflePerm rs a.length))).map
            (fun arr => listSlice arr i s.batchsize)))
      ({ s with trainMode := true, iteration := 0 }) hp0
  have hbslen : ((sliceStarts (permuteBy (env.shufflePerm rs a.length) a).length
        s.batchsize).map
        (fun i => (permuteBy (env.shufflePerm rs a.length) a
          :: permuteBy (env.shufflePerm rs a.length) b0
          :: rest.map (permuteBy (env.shufflePerm rs a.length))).map
            (fun arr => listSlice arr i s.batchsize))).length
      = (a.length + s.batchsize - 1) / s.batchsize := by
    simp [length_sliceStarts, hheadlen]
  refine ⟨{ t1 with
              epoch := t1.epoch + 1
              previous_log := t1.previous_log ++ t1.log
              log := []
              trainMode := false },
    Event.trainSet true :: Event.shuffleCall rs :: evs ++ [Event.trainSet false],
    recs, ?_, ?_, ?_, ?_, ?_⟩
  · simp only [fit, hsh2, hch, hrun]
  · simpa [length_sliceStarts, hheadlen] using hIt
  · show t1.previous_log ++ t1.log = s.previous_log ++ recs
    have hplog : t1.previous_log = s.previous_log := hPL
    have hlog1 : t1.log = recs := by
      rw [hLog]
      simp [hlog]
    rw [hplog, hlog1]
  · rw [hLen, hbslen]
  · rw [List.range_eq_range']
    simpa [length_sliceStarts, hheadlen] using hTags

/-- Full run of test exposing the iteration tags of the new history
records: the counter is reset to zero at the start (tags 0, 1, ...,
batches-1) and reset to zero again at the end. -/
theorem test_run_tags (env : Env α τ π γ ω) (s : Trainer τ π γ ω)
    (a : List α) (rest : List (List α))
    (hlog : s.log = [])
    (hn : 1 ≤ s.batchsize)
    (hpe : 1 ≤ s.print_every)
    (hlen : ∀ arr ∈ rest, arr.length = a.length) :
    ∃ t tr recs, test env s (a :: rest) = Except.ok (t, tr) ∧
      t.iteration = 0 ∧
      t.previous_log = s.previous_log ++ recs ∧
      recs.length = (a.length + s.batchsize - 1) / s.batchsize ∧
      recs.map (fun r => r.iteration)
        = List.range ((a.length + s.batchsize - 1) / s.batchsize) := by
  have hp0 : s.print_every ≠ 0 := by omega
  have hch := chunks_ok s.batchsize a rest s.cuda (by omega) hlen
  obtain ⟨t1, evs, recs, hrun, hTM, hPar, hOpt, hEp, hPL, hPE, hBS, hIt,
    hLog, hLen, hTags, hTrain, hCnt0, hCnt1⟩ :=
    runBatches_testStep env
      ((sliceStarts a.length s.batchsize).map
        (fun i => (a :: rest).map (fun arr => listSlice arr i s.batchsize)))
      ({ s with trainMode := false, iteration := 0, grads := env.zeroGrad })
      hp0
      (by
        intro b hbmem
        rcases List.mem_map.mp hbmem with ⟨i, hi, hmap⟩
        rw [← hmap]
        simp)
  refine ⟨{ t1 with
              grads := env.zeroGrad
              iteration := 0
              previous_log := t1.previous_log ++ t1.log
              log := []
              trainMode := true },
    Event.trainSet false :: Event.zero_grad :: evs
      ++ [Event.zero_grad, Event.trainSet true],
    recs, ?_, rfl, ?_, ?_, ?_⟩
  · simp only [test, hch, hrun]
  · show t1.previous_log ++ t1.log = s.previous_log ++ recs
    have hplog : t1.previous_log = s.previous_log := hPL
    have hlog1 : t1.log = recs := by
      rw [hLog]
      simp [hlog]
    rw [hplog, hlog1]
  · rw [hLen]
    simp [length_sliceStarts]
  · rw [List.range_eq_range']
    simpa [length_sliceStarts] using hTags

/-- C6 counterexample: a freshly constructed Trainer has epoch 0 and a
completed test pass over a valid dataset leaves the epoch at 0, refuting
that every kind of pass increments it. -/
theorem test_epoch_unchanged_cex :
    trainer0.epoch = 0 ∧
    (test envN trainer0 [[1, 2], [3, 4]]).map (fun r => r.1.epoch)
      = Except.ok 0 :=
  ⟨rfl, rfl⟩

/-- C6 amended: the epoch counter is monotone and is incremented by
exactly one per completed fit or fit_sequence pass, while a completed
test pass leaves it unchanged (test drives no epoch increment). -/
theorem epoch_per_pass_amended [Inhabited α] :
    (∀ (env : Env α τ π γ ω) (rs : Nat) (s : Trainer τ π γ ω)
        (args : List (List α)) (t : Trainer τ π γ ω) (tr : List (Event α τ)),
      fit env rs s args = Except.ok (t, tr) → t.epoch = s.epoch + 1) ∧
    (∀ (env : SeqEnv α τ π γ ω) (s : Trainer τ π γ ω)
        (inputs labels : List (List α)) (lengths : List Nat)
        (t : Trainer τ π γ ω) (tr : List (SeqEvent α τ)),
      fitSequence env s inputs labels lengths = Except.ok (t, tr) →
      t.epoch = s.epoch + 1) ∧
    (∀ (env : Env α τ π γ ω) (s : Trainer τ π γ ω) (args : List (List α))
        (t : Trainer τ π γ ω) (tr : List (Event α τ)),
      test env s args = Except.ok (t, tr) → t.epoch = s.epoch) := by
  refine ⟨?_, ?_, ?_⟩
  · intro env rs s args t tr h
    exact (fit_ok_inv env rs s args t tr h).2.1
  · intro env s inputs labels lengths t tr h
    exact fitSequence_ok_inv env s inputs labels lengths t tr h
  · intro env s args t tr h
    exact (test_ok_inv env s args t tr h).1

/-- Witness for the amended C6 at a concrete test pass. -/
theorem epoch_per_pass_amended_witness :
    ∃ t tr, test envN trainer0 [[1, 2], [3, 4]] = Except.ok (t, tr) ∧
      t.epoch = trainer0.epoch := by
  refine ⟨_, _, rfl, ?_⟩
  exact (@epoch_per_pass_amended Nat Nat Nat Nat Nat ⟨0⟩).2.2 envN trainer0
    [[1, 2], [3, 4]] _ _ rfl

/-- C4 counterexample: fit_sequence does not reset the iteration counter:
starting from iteration 5, processing one batch leaves the counter at 6
and the logged record is tagged 5, where a reset at the start of the pass
would give counter 1 and tag 0. -/
theorem fit_sequence_no_reset_cex :
    ({ trainer0 with iteration := 5, batchsize := 2 } : Trainer Nat Nat Nat Nat).iteration
      = 5 ∧
    (fitSequence seqEnvN { trainer0 with iteration := 5, batchsize := 2 }
        [[1], [2]] [[3], [4]] [1, 1]).map
      (fun r => (r.1.iteration, r.1.previous_log.map (fun rc => rc.iteration)))
      = Except.ok (6, [5]) :=
  ⟨rfl, rfl⟩

/-- C4 amended: fit and test reset the iteration counter to zero at the
start of the pass and increment it once per batch (their records carry
tags 0, 1, ..., batches-1; fit leaves the counter at the batch count,
test resets it again to zero at the end); fit_sequence increments once
per batch but never resets, so its records carry tags starting at the
incoming counter value (its pass only completes when every declared
sequence length fits within the rows' widths, since input[:, frame]
raises IndexError otherwise). -/
theorem iteration_reset_amended [Inhabited α] :
    (∀ (env : Env α τ π γ ω) (rs : Nat) (s : Trainer τ π γ ω)
        (a b0 : List α) (rest : List (List α)),
      s.log = [] → 1 ≤ s.batchsize → 1 ≤ s.print_every →
      (∀ arr ∈ b0 :: rest, arr.length = a.length) →
      (env.shufflePerm rs a.length).Perm (List.range a.length) →
      ∃ t tr recs, fit env rs s (a :: b0 :: rest) = Except.ok (t, tr) ∧
        t.iteration = (a.length + s.batchsize - 1) / s.batchsize ∧
        t.previous_log = s.previous_log ++ recs ∧
        recs.map (fun r => r.iteration)
          = List.range ((a.length + s.batchsize - 1) / s.batchsize)) ∧
    (∀ (env : Env α τ π γ ω) (s : Trainer τ π γ ω) (a : List α)
        (rest : List (List α)),
      s.log = [] → 1 ≤ s.batchsize → 1 ≤ s.print_every →
      (∀ arr ∈ rest, arr.length = a.length) →
      ∃ t tr recs, test env s (a :: rest) = Except.ok (t, tr) ∧
        t.iteration = 0 ∧
        t.previous_log = s.previous_log ++ recs ∧
        recs.map (fun r => r.iteration)
          = List.range ((a.length + s.batchsize - 1) / s.batchsize)) ∧
    (∀ (env : SeqEnv α τ π γ ω) (s : Trainer τ π γ ω)
        (inputs labels : List (List α)) (lengths : List Nat),
      labels.length = inputs.length → lengths.length = inputs.length →
      1 ≤ s.batchsize → 1 ≤ s.print_every → (∀ x ∈ lengths, 1 ≤ x) →
      (∀ row ∈ inputs, ∀ x ∈ lengths, x ≤ row.length) →
      (∀ row ∈ labels, ∀ x ∈ lengths, x ≤ row.length) →
      ∃ t tr recs, fitSequence env s inputs labels lengths
          = Except.ok (t, tr) ∧
        t.iteration = s.iteration
          + (inputs.length + s.batchsize - 1) / s.batchsize ∧
        recs.map (fun r => r.iteration)
          = List.range' s.iteration
              ((inputs.length + s.batchsize - 1) / s.batchsize) ∧
        t.previous_log = s.previous_log ++ s.log ++ recs) := by
  refine ⟨?_, ?_, ?_⟩
  · intro env rs s a b0 rest hlog hn hpe hlen hperm
    obtain ⟨t, tr, recs, h1, h2, h3, h4, h5⟩ :=
      fit_run_tags env rs s a b0 rest hlog hn hpe hlen hperm
    exact ⟨t, tr, recs, h1, h2, h3, h5⟩
  · intro env s a rest hlog hn hpe hlen
    obtain ⟨t, tr, recs, h1, h2, h3, h4, h5⟩ :=
      test_run_tags env s a rest hlog hn hpe hlen
    exact ⟨t, tr, recs, h1, h2, h3, h5⟩
  · intro env s inputs labels lengths hlab hlen hn hpe hpos hwx hwy
    obtain ⟨t, tr, recs, h1, h2, h3, h4, h5, h6, h7⟩ :=
      fitSequence_run env s inputs labels lengths hlab hlen hn hpe hpos hwx hwy
    exact ⟨t, tr, recs, h1, h3, h7, h5⟩

/-- Witness for the amended C4: a fit_sequence pass starting at iteration
5 over one batch tags its record 5 and ends at 6. -/
theorem iteration_reset_amended_witness :
    ∃ t tr recs, fitSequence seqEnvN
        { trainer0 with iteration := 5, batchsize := 2 }
        [[1], [2]] [[3], [4]] [1, 1] = Except.ok (t, tr) ∧
      t.iteration = 5 + 1 ∧
      recs.map (fun r => r.iteration) = List.range' 5 1 ∧
      t.previous_log = [] ++ [] ++ recs := by
  obtain ⟨t, tr, recs, h1, h2, h3, h4⟩ :=
    (@iteration_reset_amended Nat Nat Nat Nat Nat ⟨0⟩).2.2 seqEnvN
      { trainer0 with iteration := 5, batchsize := 2 }
      [[1], [2]] [[3], [4]] [1, 1] rfl rfl (by decide) (by decide) (by decide)
      (by decide) (by decide)
  exact ⟨t, tr, recs, h1, h2, h3, h4⟩

/-- C8 counterexample: with a configured clip threshold of 0.0 the Python
truthiness test `if self.clip:` skips clipping, so a fit batch emits no
clip call even though a threshold is configured. -/
theorem clip_zero_truthiness_cex :
    ({ trainer0 with clip := some 0 } : Trainer Nat Nat Nat Nat).clip ≠ none ∧
    (fitStep envN { trainer0 with clip := some 0 } [[1]]).map (fun r => r.2)
      = Except.ok [Event.zero_grad, Event.forwardCall [[1]],
          Event.lossCall 0 [[1]], Event.backwardCall, Event.stepCall,
          Event.callbacksRun, Event.printLog] := by
  constructor
  · simp
  · rfl

/-- C8 amended: in every fit batch and every fit_sequence time step where
the configured clip threshold is truthy (set and nonzero), clip_grad_norm
runs immediately after backward and immediately before the optimizer
step; when the threshold is None or zero, no clip call occurs at all. -/
theorem clip_between_backward_and_step [Inhabited α] :
    (∀ (env : Env α τ π γ ω) (s : Trainer τ π γ ω) (b : List (List α))
        (t : Trainer τ π γ ω) (evs : List (Event α τ)),
      fitStep env s b = Except.ok (t, evs) →
      (pyTruthy s.clip = true →
        ∃ c l1 l2, s.clip = some c ∧
          evs = l1 ++ [Event.backwardCall, Event.clipCall c, Event.stepCall]
            ++ l2) ∧
      (pyTruthy s.clip = false → ∀ c, Event.clipCall c ∉ evs)) ∧
    (∀ (env : SeqEnv α τ π γ ω) (xb yb : List (List α))
        (st : Trainer τ π γ ω × Option (Frame α τ)) (f : Nat)
        (out : (Trainer τ π γ ω × Option (Frame α τ)) × List (SeqEvent α τ)),
      seqFrameStep env xb yb st f = Except.ok out →
      (pyTruthy st.1.clip = true →
        ∃ c l1 l2, st.1.clip = some c ∧
          out.2
            = l1 ++ [SeqEvent.backwardF, SeqEvent.clipF c, SeqEvent.stepF]
              ++ l2) ∧
      (pyTruthy st.1.clip = false → ∀ c,
        SeqEvent.clipF c ∉ out.2)) := by
  constructor
  · intro env s b t evs h
    unfold fitStep at h
    split at h
    · cases h
    · simp only [Except.ok.injEq, Prod.mk.injEq] at h
      obtain ⟨h1, h2⟩ := h
      subst h2
      constructor
      · intro htr
        cases hc : s.clip with
        | none =>
          rw [hc] at htr
          simp [pyTruthy] at htr
        | some c =>
          refine ⟨c, [Event.zero_grad, Event.forwardCall b,
            Event.lossCall (fitPred env s b) b],
            Event.callbacksRun
              :: (if s.iteration % s.print_every = 0
                  then [Event.printLog] else []), rfl, ?_⟩
          rw [hc] at htr
          simp [fitEvents, clipEvents, hc, htr]
      · intro htr c
        simp [fitEvents, clipEvents, htr]
  · intro env xb yb st f out h
    unfold seqFrameStep at h
    split at h
    · split at h
      · simp only [Except.ok.injEq] at h
        subst h
        constructor
        · intro htr
          cases hc : st.1.clip with
          | none =>
            rw [hc] at htr
            simp [pyTruthy] at htr
          | some c =>
            refine ⟨c, [SeqEvent.zeroG, SeqEvent.forwardF (frameCol xb f),
              SeqEvent.lossF (seqPred env st.1 xb f) (frameCol yb f)],
              [], rfl, ?_⟩
            rw [hc] at htr
            simp [seqFrameEvents, hc, htr]
        · intro htr c
          simp [seqFrameEvents, htr]
      · exact Except.noConfusion h
    · exact Except.noConfusion h

/-- Witness for the amended C8: with clip threshold 1 a fit batch places
the clip call between backward and step. -/
theorem clip_between_backward_and_step_witness :
    pyTruthy ({ trainer0 with clip := some 1 } : Trainer Nat Nat Nat Nat).clip
      = true ∧
    ∃ t evs, fitStep envN { trainer0 with clip := some 1 } [[1]]
        = Except.ok (t, evs) ∧
      ∃ c l1 l2,
        ({ trainer0 with clip := some 1 } : Trainer Nat Nat Nat Nat).clip
          = some c ∧
        evs = l1 ++ [Event.backwardCall, Event.clipCall c, Event.stepCall]
          ++ l2 := by
  refine ⟨by decide, _, _, rfl, ?_⟩
  exact ((@clip_between_backward_and_step Nat Nat Nat Nat Nat ⟨0⟩).1 envN
    { trainer0 with clip := some 1 } [[1]] _ _ rfl).1 (by decide)

/-- Trainer state identical except for the stored configured seed. -/
def setSeed (s : Trainer τ π γ ω) (v : Nat) : Trainer τ π γ ω :=
  { s with seed := v }

/-- The per-batch fit body never reads the configured seed. -/
theorem fitStep_setSeed (env : Env α τ π γ ω) (s : Trainer τ π γ ω)
    (b : List (List α)) (v : Nat) :
    fitStep env (setSeed s v) b
      = (fitStep env s b).map (fun r => (setSeed r.1 v, r.2)) := by
  obtain ⟨tm, pa, gr, op, pl, lo, ep, it, sd, pe, bsz, wi, cl, cu, gn⟩ := s
  by_cases hpe : pe = 0
  · subst hpe
    rfl
  · simp only [fitStep, setSeed]
    rw [if_neg hpe, if_neg hpe]
    rfl

/-- The fit loop never reads the configured seed. -/
theorem runBatches_setSeed (env : Env α τ π γ ω) (bs : List (List (List α))) :
    ∀ (s : Trainer τ π γ ω) (v : Nat),
    runBatches (fitStep env) (setSeed s v) bs
      = (runBatches (fitStep env) s bs).map (fun r => (setSeed r.1 v, r.2)) := by
  induction bs with
  | nil => intro s v; rfl
  | cons b bs ih =>
    intro s v
    cases hfb : fitStep env s b with
    | error m =>
      have hL : fitStep env (setSeed s v) b = Except.error m := by
        rw [fitStep_setSeed, hfb]
        rfl
      simp only [runBatches, hfb, hL]
      rfl
    | ok r =>
      obtain ⟨s1, evs1⟩ := r
      have hL : fitStep env (setSeed s v) b = Except.ok (setSeed s1 v, evs1) := by
        rw [fitStep_setSeed, hfb]
        rfl
      simp only [runBatches, hfb, hL]
      rw [ih s1 v]
      cases hrun : runBatches (fitStep env) s1 bs with
      | error m => rfl
      | ok r2 =>
        obtain ⟨t2, evs2⟩ := r2
        rfl

/-- fit itself never reads the configured seed: with the same global draw
it produces the same result up to the stored seed field. -/
theorem fit_setSeed (env : Env α τ π γ ω) (rs : Nat) (s : Trainer τ π γ ω)
    (args : List (List α)) (v : Nat) :
    fit env rs (setSeed s v) args
      = (fit env rs s args).map (fun r => (setSeed r.1 v, r.2)) := by
  cases hsh : sklearnShuffle env.shufflePerm rs args with
  | error m =>
    simp only [fit, hsh]
    rfl
  | ok sh =>
    cases hch : chunks s.batchsize sh s.cuda with
    | error m =>
      have hch2 : chunks (setSeed s v).batchsize sh (setSeed s v).cuda
          = Except.error m := hch
      simp only [fit, hsh, hch, hch2]
      rfl
    | ok bs =>
      have hch2 : chunks (setSeed s v).batchsize sh (setSeed s v).cuda
          = Except.ok bs := hch
      have h0 : ({ setSeed s v with trainMode := true, iteration := 0 }
          : Trainer τ π γ ω)
          = setSeed ({ s with trainMode := true, iteration := 0 }) v := rfl
      cases hrun : runBatches (fitStep env)
          ({ s with trainMode := true, iteration := 0 }) bs with
      | error m =>
        have hrun2 : runBatches (fitStep env)
            ({ setSeed s v with trainMode := true, iteration := 0 }) bs
            = Except.error m := by
          rw [h0, runBatches_setSeed, hrun]
          rfl
        simp only [fit, hsh, hch, hch2, hrun, hrun2]
        rfl
      | ok r =>
        obtain ⟨t1, evs⟩ := r
        have hrun2 : runBatches (fitStep env)
            ({ setSeed s v with trainMode := true, iteration := 0 }) bs
            = Except.ok (setSeed t1 v, evs) := by
          rw [h0, runBatches_setSeed, hrun]
          rfl
        simp only [fit, hsh, hch, hch2, hrun, hrun2]
        rfl

/-- Decidable equality of Except results, for evaluating the embedding on
concrete inputs. -/
instance exceptDecEq {ε β : Type} [DecidableEq ε] [DecidableEq β] :
    DecidableEq (Except ε β) := fun x y =>
  match x, y with
  | Except.error a, Except.error b =>
    if h : a = b then Decidable.isTrue (by rw [h])
    else Decidable.isFalse (by
      intro hc
      injection hc with h2
      exact h h2)
  | Except.error a, Except.ok b =>
    Decidable.isFalse (by intro hc; exact Except.noConfusion hc)
  | Except.ok a, Except.error b =>
    Decidable.isFalse (by intro hc; exact Except.noConfusion hc)
  | Except.ok a, Except.ok b =>
    if h : a = b then Decidable.isTrue (by rw [h])
    else Decidable.isFalse (by
      intro hc
      injection hc with h2
      exact h h2)

/-- Shuffle collaborator whose permutation genuinely depends on the drawn
random state: even draws keep the order, odd draws reverse it. -/
def envRev : Env Nat Nat Nat Nat Nat :=
  { envN with
      shufflePerm := fun rs len =>
        if rs % 2 = 0 then List.range len else (List.range len).reverse }

/-- C9: the per-call shuffle permutation is derived from the freshly drawn
global random value rs, not from the configured seed: trainers differing
only in their configured seed produce identical fit results apart from the
stored seed field, while two different global draws can produce different
shuffle orders for one and the same trainer. -/
theorem shuffle_seed_noninfluence :
    (∀ (env : Env α τ π γ ω) (rs : Nat) (s : Trainer τ π γ ω)
        (args : List (List α)) (a b : Nat),
      (fit env rs (setSeed s a) args).map (fun r => (setSeed r.1 0, r.2))
        = (fit env rs (setSeed s b) args).map (fun r => (setSeed r.1 0, r.2))) ∧
    (∃ (env : Env Nat Nat Nat Nat Nat) (s : Trainer Nat Nat Nat Nat)
        (args : List (List Nat)) (rs1 rs2 : Nat),
      (fit env rs1 s args).map (fun r => r.2)
        ≠ (fit env rs2 s args).map (fun r => r.2)) := by
  constructor
  · intro env rs s args a b
    rw [fit_setSeed env rs s args a, fit_setSeed env rs s args b]
    cases h : fit env rs s args with
    | error m => rfl
    | ok r => rfl
  · refine ⟨envRev, { trainer0 with batchsize := 1 }, [[0, 1], [0, 1]],
      0, 1, ?_⟩
    decide

/-- C10: in every fit batch, forward is applied to the whole batch with
the label array included and loss to the prediction plus the whole batch;
in every test batch, forward is applied to every array except the last
and loss to the prediction and the last array only. -/
theorem forward_loss_argument_shapes :
    (∀ (env : Env α τ π γ ω) (s : Trainer τ π γ ω) (b : List (List α))
        (t : Trainer τ π γ ω) (evs : List (Event α τ)),
      fitStep env s b = Except.ok (t, evs) →
      evs.get? 1 = some (Event.forwardCall b) ∧
      evs.get? 2 = some (Event.lossCall (env.forward s.params b) b)) ∧
    (∀ (env : Env α τ π γ ω) (s : Trainer τ π γ ω) (b : List (List α))
        (tgt : List α) (t : Trainer τ π γ ω) (evs : List (Event α τ)),
      b.getLast? = some tgt →
      testStep env s b = Except.ok (t, evs) →
      evs.get? 0 = some (Event.forwardCall b.dropLast) ∧
      evs.get? 1 = some (Event.lossCall (env.forward s.params b.dropLast)
        [tgt])) := by
  constructor
  · intro env s b t evs h
    unfold fitStep at h
    split at h
    · cases h
    · simp only [Except.ok.injEq, Prod.mk.injEq] at h
      obtain ⟨h1, h2⟩ := h
      subst h2
      exact ⟨rfl, rfl⟩
  · intro env s b tgt t evs htgt h
    unfold testStep at h
    simp only [htgt] at h
    split at h
    · cases h
    · simp only [Except.ok.injEq, Prod.mk.injEq] at h
      obtain ⟨h1, h2⟩ := h
      subst h2
      exact ⟨rfl, rfl⟩

/-- Witness for C10 at a concrete fit batch of two arrays. -/
theorem forward_loss_argument_shapes_witness :
    ∃ t evs, fitStep envN trainer0 [[1, 2], [3, 4]] = Except.ok (t, evs) ∧
      evs.get? 1 = some (Event.forwardCall [[1, 2], [3, 4]]) ∧
      evs.get? 2 = some (Event.lossCall 0 [[1, 2], [3, 4]]) := by
  refine ⟨_, _, rfl, ?_⟩
  exact (@forward_loss_argument_shapes Nat Nat Nat Nat Nat).1 envN trainer0
    [[1, 2], [3, 4]] _ _ rfl
